import Mathlib

/-!
# MultiplePersonBackgroundRemoval: window.hpp and Main.cpp

A shallow embedding of the frame decoder (`Window::processFrames`), the layout
composer (`Window::renderMats`), the fast inverse square root (`Q_rsqrt`) and the
single-slot frame hand-off of `Main.cpp`, with theorems about them.

## Arithmetic

The program is built with MSVC (`#pragma warning`, `__FUNCTION__ "..."`, C++20
modules), so `long` is a 32-bit two's complement integer, `float` is IEEE-754
binary32 and `double` is binary64, every operation rounded on its own (no fused
multiply-add) to nearest, ties to even, in the precision of its operands.  `IEEE fmt`
models that exactly: a finite value is a sign and a magnitude counted in units of the
smallest subnormal (2^-149 for binary32, 2^-1074 for binary64), so every finite value is
a natural number of units and all operations are integer arithmetic followed by one
rounding (`IEEE.roundMag_err`, `IEEE.roundMag_representable`, `IEEE.roundMag_exact`).
-/

set_option exponentiation.threshold 8192
set_option maxRecDepth 100000

/-- An IEEE-754 binary interchange format: `mant` stored significand bits, and `unit`
such that the smallest positive subnormal is `2 ^ (-unit)`. -/
structure FloatFormat where
  mant : Nat
  unit : Nat
  deriving DecidableEq, Repr

/-- The format of `float`. -/
def binary32 : FloatFormat := ⟨23, 149⟩

/-- The format of `double`. -/
def binary64 : FloatFormat := ⟨52, 1074⟩

/-- A floating point datum of format `fmt`. `finite neg mag` is the number
`(-1)^neg * mag * 2^(-fmt.unit)`. -/
inductive IEEE (fmt : FloatFormat) where
  | finite (neg : Bool) (mag : Nat)
  | inf (neg : Bool)
  | nan
  deriving DecidableEq, Repr

namespace IEEE

/-- Binary search for the position of the leading bit: with `j` rounds left and
`2 ^ acc ≤ n` known, tries to add `2 ^ (j - 1)` to `acc`. -/
def ilog2Aux (n : Nat) : Nat → Nat → Nat
  | 0, acc => acc
  | j + 1, acc => ilog2Aux n j (if 2 ^ (acc + 2 ^ j) ≤ n then acc + 2 ^ j else acc)

/-- The position of the leading bit, `⌊log₂ n⌋`, for `0 < n < 2 ^ 8192` (every
product and quotient of two binary64 magnitudes is below `2 ^ 5300`). -/
def ilog2 (n : Nat) : Nat := ilog2Aux n 13 0

/-- The exponent `kb` of the rounding quantum `2 ^ kb` (in units) for the positive
rational `num / den`: `⌊log₂ (num / den)⌋ - mant`, and `0` in the subnormal range. -/
def quantum (fmt : FloatFormat) (num den : Nat) : Nat :=
  let kb0 := ilog2 num - ilog2 den - fmt.mant
  if 0 < kb0 ∧ num < den * 2 ^ (kb0 + fmt.mant) then kb0 - 1 else kb0

/-- The integer nearest to `num / d`, a tie going to the even one. -/
def roundHalfEven (num d : Nat) : Nat :=
  let q := num / d
  let r := num % d
  if 2 * r < d then q else if 2 * r = d then q + q % 2 else q + 1

/-- Round the non-negative rational `num / den` (in units) to the nearest multiple of
its quantum, ties to the even multiple. The result is a magnitude in units. -/
def roundMag (fmt : FloatFormat) (num den : Nat) : Nat :=
  let kb := quantum fmt num den
  roundHalfEven num (den * 2 ^ kb) * 2 ^ kb

/-- The largest finite magnitude: a full significand at the largest exponent. -/
def maxMag (fmt : FloatFormat) : Nat :=
  (2 ^ (fmt.mant + 1) - 1) * 2 ^ (2 * (fmt.unit - fmt.mant) + 1)

/-- Round `(-1)^neg * num / den` units to the format; overflow gives an infinity. -/
def round {fmt : FloatFormat} (neg : Bool) (num den : Nat) : IEEE fmt :=
  let m := roundMag fmt num den
  if maxMag fmt < m then inf neg else finite neg m

/-- The number `num / den` as a literal of the format (`1.5F`, `0.01f`). -/
def ofRatio {fmt : FloatFormat} (num den : Nat) : IEEE fmt :=
  round false (num * 2 ^ fmt.unit) den

/-- Conversion of an integer to the format (`static_cast<float>(n)`, and the implicit
conversion of an `int` operand). -/
def ofInt {fmt : FloatFormat} (n : Int) : IEEE fmt :=
  round (decide (n < 0)) (n.natAbs * 2 ^ fmt.unit) 1

def neg {fmt : FloatFormat} : IEEE fmt → IEEE fmt
  | finite s m => finite (!s) m
  | inf s => inf (!s)
  | nan => nan

def add {fmt : FloatFormat} : IEEE fmt → IEEE fmt → IEEE fmt
  | finite sa ma, finite sb mb =>
    if sa = sb then round sa (ma + mb) 1
    else if mb < ma then round sa (ma - mb) 1
    else if ma < mb then round sb (mb - ma) 1
    else finite false 0
  | finite _ _, inf s => inf s
  | inf s, finite _ _ => inf s
  | inf sa, inf sb => if sa = sb then inf sa else nan
  | _, _ => nan

def sub {fmt : FloatFormat} (a b : IEEE fmt) : IEEE fmt := add a (neg b)

def mul {fmt : FloatFormat} : IEEE fmt → IEEE fmt → IEEE fmt
  | finite sa ma, finite sb mb => round (sa != sb) (ma * mb) (2 ^ fmt.unit)
  | finite sa ma, inf sb => if ma = 0 then nan else inf (sa != sb)
  | inf sa, finite sb mb => if mb = 0 then nan else inf (sa != sb)
  | inf sa, inf sb => inf (sa != sb)
  | _, _ => nan

def div {fmt : FloatFormat} : IEEE fmt → IEEE fmt → IEEE fmt
  | finite sa ma, finite sb mb =>
    if mb = 0 then (if ma = 0 then nan else inf (sa != sb))
    else round (sa != sb) (ma * 2 ^ fmt.unit) mb
  | finite sa _, inf sb => finite (sa != sb) 0
  | inf sa, finite sb _ => inf (sa != sb)
  | _, _ => nan

/-- The comparison `a < b`; false when either side is a NaN. -/
def lt {fmt : FloatFormat} : IEEE fmt → IEEE fmt → Bool
  | finite sa ma, finite sb mb =>
    match sa, sb with
    | false, false => decide (ma < mb)
    | true, true => decide (mb < ma)
    | true, false => decide (0 < ma ∨ 0 < mb)
    | false, true => false
  | finite _ _, inf s => !s
  | inf s, finite _ _ => s
  | inf sa, inf sb => sa && !sb
  | _, _ => false

/-- Conversion to `int`, `static_cast<int>(x)`: truncation toward zero. What is out of
range (undefined in C++) is the x86 "integer indefinite" value `-2^31`. -/
def toInt32 {fmt : FloatFormat} : IEEE fmt → Int
  | finite s m =>
    let t : Int := if s then -((m / 2 ^ fmt.unit : Nat) : Int) else ((m / 2 ^ fmt.unit : Nat) : Int)
    if -(2 : Int) ^ 31 ≤ t ∧ t < 2 ^ 31 then t else -(2 : Int) ^ 31
  | _ => -(2 : Int) ^ 31

/-- Conversion to `uint8_t`, `static_cast<uint8_t>(x)`: the low byte of the truncation
to `int`. -/
def toUInt8 {fmt : FloatFormat} (x : IEEE fmt) : Nat := (toInt32 x % 256).toNat

/-- The exact value of a finite datum as a rational number (`0` for inf and NaN). -/
def toRat {fmt : FloatFormat} : IEEE fmt → ℚ
  | finite s m => (if s then -1 else 1) * (m : ℚ) / 2 ^ fmt.unit
  | _ => 0

/-- The binary32 encoding: sign, 8 exponent bits, 23 significand bits. -/
def toBits : IEEE binary32 → Nat
  | finite s mag =>
    let sb := if s then 2 ^ 31 else 0
    if mag < 2 ^ 23 then sb + mag
    else
      let kb := ilog2 mag - 23
      sb + (kb + 1) * 2 ^ 23 + (mag / 2 ^ kb - 2 ^ 23)
  | inf s => (if s then 2 ^ 31 else 0) + 0x7f800000
  | nan => 0x7fc00000

/-- The binary32 datum with a given 32-bit encoding. -/
def ofBits (b : Nat) : IEEE binary32 :=
  let s := decide (b / 2 ^ 31 % 2 = 1)
  let e := b / 2 ^ 23 % 256
  let man := b % 2 ^ 23
  if e = 255 then (if man = 0 then inf s else nan)
  else if e = 0 then finite s man
  else finite s ((2 ^ 23 + man) * 2 ^ (e - 1))

/-- The implicit conversion `float` to `double`, which is exact. -/
def toDouble : IEEE binary32 → IEEE binary64
  | finite s m => finite s (m * 2 ^ (1074 - 149))
  | inf s => inf s
  | nan => nan

end IEEE

abbrev F32 := IEEE binary32
abbrev F64 := IEEE binary64

/-! ## window.hpp: `Q_rsqrt` and the grid dimensions -/

/-- The function `Q_rsqrt` of window.hpp. `i` is the 32-bit `long` read from the bits of
`y`; `i >> 1` is the arithmetic shift, and the subtraction wraps to 32 bits. -/
def Q_rsqrt (number : F32) : F32 :=
  let threehalfs : F32 := IEEE.ofRatio 3 2
  let x2 := IEEE.mul number (IEEE.ofRatio 1 2)
  let y := number
  let b := IEEE.toBits y
  let i : Int := if b < 2 ^ 31 then (b : Int) else (b : Int) - 2 ^ 32
  let i : Int := (0x5f3759df - i / 2) % 2 ^ 32
  let y := IEEE.ofBits i.toNat
  IEEE.mul y (IEEE.sub threehalfs (IEEE.mul (IEEE.mul x2 y) y))

/-- The locals `cols` and `rows` of the `RENDER_GRID` case of `Window::renderMats`,
for `count = mats.size()`. -/
def gridDims (count : Nat) : Int × Int :=
  let sq : F32 := IEEE.div (IEEE.ofRatio 1 1) (Q_rsqrt (IEEE.ofInt count))
  let isq := IEEE.toInt32 sq
  let cols := if IEEE.lt (IEEE.sub sq (IEEE.ofInt isq)) (IEEE.ofRatio 1 100) then isq else isq + 1
  let dv : F32 := IEEE.div (IEEE.ofInt count) (IEEE.ofInt cols)
  let idiv := IEEE.toInt32 dv
  let rows := if IEEE.lt (IEEE.sub dv (IEEE.ofInt idiv)) (IEEE.ofRatio 1 100) then idiv else idiv + 1
  (cols, rows)

/-- The integer square root by search from above: the largest `k ≤ fuel` with
`k * k ≤ n`. -/
def isqrtAux (n : Nat) : Nat → Nat
  | 0 => 0
  | k + 1 => if (k + 1) * (k + 1) ≤ n then k + 1 else isqrtAux n k

/-- The value `⌊√n⌋`. -/
def isqrt (n : Nat) : Nat := isqrtAux n n

/-- The grid dimensions in the words of the specification, with the exact square root:
columns are `⌊√N⌋` if `√N - ⌊√N⌋ < 0.01` and `⌊√N⌋ + 1` otherwise; rows are
`⌊N / columns⌋` if the fractional part of `N / columns` is below `0.01` and one more
otherwise. With `k = ⌊√N⌋`, `√N - k < 1/100` is `10000 * N < (100 * k + 1)^2`, and the
fractional part of `N / c` is `(N mod c) / c`. -/
def specGridDims (n : Nat) : Int × Int :=
  let k := isqrt n
  let cols := if 10000 * n < (100 * k + 1) ^ 2 then k else k + 1
  let rows := if 100 * (n % cols) < cols then n / cols else n / cols + 1
  ((cols : Int), (rows : Int))

/-! ## OpenCV and the Orbbec SDK

The libraries are not part of the repository. Their data is modelled (`Mat`, `Frame`),
their functions are parameters (`OpenCV`), and the two facts about them that the
theorems rest on are fields of `OpenCV`. -/

/-- The element types of the `cv::Mat` headers that the program creates. -/
inductive MatType where
  | CV_8UC1 | CV_8UC2 | CV_8UC3 | CV_16UC1
  deriving DecidableEq, Repr

/-- Bytes of one element. -/
def MatType.elemSize : MatType → Nat
  | CV_8UC1 => 1
  | CV_8UC2 => 2
  | CV_8UC3 => 3
  | CV_16UC1 => 2

/-- A `cv::Mat`: header and the continuous byte buffer it points to. -/
structure Mat where
  dims : Nat
  rows : Nat
  cols : Nat
  type : MatType
  data : List (Fin 256)
  deriving DecidableEq, Repr

namespace Mat

/-- The default constructed `cv::Mat()`. -/
def default : Mat := ⟨0, 0, 0, MatType.CV_8UC1, []⟩

/-- True when `size()` has positive width and height. -/
def hasArea (m : Mat) : Bool := decide (0 < m.cols) && decide (0 < m.rows)

/-- Bytes of one row. -/
def step (m : Mat) : Nat := m.cols * m.type.elemSize

/-- Byte offset of channel `c` of `at<cv::Vec3b>(i, j)`. -/
def offset3 (m : Mat) (i j c : Nat) : Nat := i * m.step + j * 3 + c

/-- Read of `at<cv::Vec3b>(i, j)[c]`. -/
def at3 (m : Mat) (i j c : Nat) : Fin 256 := m.data.getD (m.offset3 i j c) 0

/-- Write of `at<cv::Vec3b>(i, j)[c] = v`. -/
def set3 (m : Mat) (i j c : Nat) (v : Fin 256) : Mat :=
  { m with data := m.data.set (m.offset3 i j c) v }

end Mat

/-- A thrown `std::exception` (a `cv::Exception`, `std::out_of_range`,
`std::runtime_error`) with its `what()`. -/
structure CvError where
  what : String
  deriving DecidableEq, Repr

/-- What a call does to the outside: the display sink and the two text streams. -/
inductive Effect where
  | imshow (title : String) (img : Mat)
  | destroyAllWindows
  | cout (text : String)
  | cerr (text : String)
  | detect (img : Mat)
  | track (img : Mat) (faces : List (Int × Int))
  deriving DecidableEq, Repr

/-- True for a call of `cv::imshow`. -/
def Effect.isImshow : Effect → Bool
  | Effect.imshow _ _ => true
  | _ => false

/-- Conversion codes passed to `cv::cvtColor`. -/
inductive ColorCode where
  | COLOR_YUV2BGR_NV21 | COLOR_YUV2BGR_YUY2 | COLOR_RGB2BGR | COLOR_GRAY2RGB
  deriving DecidableEq, Repr

/-- The OpenCV functions that window.hpp calls. Each returns its output array or
throws. `bitwise_or_noArea` and `resize_spec` are what OpenCV documents: the output of
`bitwise_or` has the size of its array input, and `resize` produces a continuous
array of the requested size and of the type of its input. -/
structure OpenCV where
  imdecode : Mat → Int → Except CvError Mat
  cvtColor : Mat → ColorCode → Except CvError Mat
  convertScaleAbs : Mat → F64 → Except CvError Mat
  putText : Mat → String → Int × Int → Except CvError Mat
  hconcat : Mat → Mat → Except CvError Mat
  vconcat : Mat → Mat → Except CvError Mat
  bitwise_or : Mat → Mat → Except CvError Mat
  resize : Mat → Int → Int → Except CvError Mat
  bitwise_or_noArea : ∀ a b r, a.hasArea = false → bitwise_or a b = .ok r → r.hasArea = false
  resize_spec : ∀ src width height r, resize src width height = .ok r →
    (r.rows : Int) = height ∧ (r.cols : Int) = width ∧ r.type = src.type ∧
      r.data.length = r.rows * r.cols * r.type.elemSize

/-- The function `cv::imshow`: it asserts that the image has positive width and height. -/
def imshow (title : String) (img : Mat) : Except CvError (List Effect) :=
  if img.hasArea then .ok [Effect.imshow title img]
  else .error ⟨"(-215:Assertion failed) size.width>0 && size.height>0 in function 'cv::imshow'"⟩

/-- The function `cv::Mat::zeros(rows, cols, type)`. -/
def Mat.zeros (rows cols : Int) (type : MatType) : Except CvError Mat :=
  if rows < 0 ∨ cols < 0 then .error ⟨"cv::Mat::zeros: negative size"⟩
  else .ok ⟨2, rows.toNat, cols.toNat, type,
    List.replicate (rows.toNat * cols.toNat * type.elemSize) 0⟩

/-- Modelled from the spec: the stream kind of a frame, `OBFrameType` of the SDK header
ObTypes.h, which is not among the sources: color, depth and infrared, the three the
program names; `other` stands for every further enumerator. -/
inductive OBFrameType where
  | OB_FRAME_COLOR | OB_FRAME_DEPTH | OB_FRAME_IR
  | other (code : Nat)
  deriving DecidableEq, Repr

/-- Modelled from the spec: the pixel format tag of a frame, `OBFormat` of the SDK header
ObTypes.h, which is not among the sources: the six enumerators the program names;
`other` stands for every further enumerator. -/
inductive OBFormat where
  | OB_FORMAT_MJPG | OB_FORMAT_NV21 | OB_FORMAT_YUYV | OB_FORMAT_YUY2 | OB_FORMAT_RGB888
  | OB_FORMAT_Y16
  | other (code : Nat)
  deriving DecidableEq, Repr

/-- An `ob::VideoFrame` as the program reads it: `pixelAvailableBitSize` is a
`uint8_t`, `width`, `height` and `dataSize` are `uint32_t`, the time stamps `uint64_t`,
and `data` is the buffer that `data()` points to. -/
structure Frame where
  type : OBFrameType
  format : OBFormat
  dataSize : Nat
  width : Nat
  height : Nat
  pixelAvailableBitSize : Nat
  timeStamp : Nat
  systemTimeStamp : Nat
  data : List (Fin 256)
  deriving DecidableEq, Repr

/-- The `<cmath>` call `pow(base, k)` for integers `base` and `k`, which are converted
to `double`: the correctly rounded power. -/
def pow (base : Nat) (k : Int) : F64 :=
  if 0 ≤ k then IEEE.round false (base ^ k.toNat * 2 ^ 1074) 1
  else IEEE.round false (2 ^ 1074) (base ^ (-k).toNat)

/-! ## window.hpp: `Window` -/

def ESC : Int := 27

inductive RenderType where
  | RENDER_SINGLE | RENDER_ONE_ROW | RENDER_ONE_COLOUMN | RENDER_GRID | RENDER_OVERLAY
  | other (code : Int)
  deriving DecidableEq, Repr

structure Window where
  mTitle : String
  mWidth : Int
  mHeight : Int
  mWindowClose : Bool := false
  mKeyPressed : Int := -1
  mShowInfo : Bool := false
  mAverageColorFps : Int := 0
  mAverageDepthFps : Int := 0
  mAverageIrFps : Int := 0
  deriving DecidableEq, Repr

namespace Window

/-- The method `ScanKeyPress`, for the value `key` that `cv::waitKey(1)` returns. -/
def ScanKeyPress (w : Window) (key : Int) : Window × List Effect × Bool :=
  let w1 := { w with mKeyPressed := key }
  let w2 :=
    if key = ESC then { w1 with mWindowClose := true }
    else if key = 73 ∨ key = 105 then { w1 with mShowInfo := !w1.mShowInfo }
    else w1
  (w2, if w2.mWindowClose then [Effect.destroyAllWindows] else [], w2.mWindowClose)

/-- The static method `drawInfo`: the calls of `cv::putText` in order. -/
def drawInfo (cv : OpenCV) (imageMat : Mat) (frame : Frame) (averageFps : Int) :
    Except CvError Mat := do
  let m1 ←
    if frame.type = OBFrameType.OB_FRAME_COLOR then
      if frame.format = OBFormat.OB_FORMAT_NV21 then cv.putText imageMat "Color-NV21" (8, 16)
      else if frame.format = OBFormat.OB_FORMAT_MJPG then cv.putText imageMat "Color-MJPG" (8, 16)
      else pure imageMat
    else if frame.type = OBFrameType.OB_FRAME_DEPTH then cv.putText imageMat "Depth" (8, 16)
    else if frame.type = OBFrameType.OB_FRAME_IR then cv.putText imageMat "IR" (8, 16)
    else pure imageMat
  let m2 ←
    if frame.timeStamp ≠ 0 then
      cv.putText m1 ("Timestamp: " ++ toString frame.timeStamp) (8, 40)
    else pure m1
  let m3 ← cv.putText m2 ("System timestamp: " ++ toString frame.systemTimeStamp) (8, 64)
  if averageFps ≠ 0 then cv.putText m3 ("Frame rate: " ++ toString averageFps) (8, 88)
  else pure m3

/-- The decoding of one frame in the loop of `processFrames`: the value of `rstMat`
when the chain of format tests is left. -/
def decodeFrame (cv : OpenCV) (videoFrame : Frame) : Except CvError Mat :=
  if videoFrame.type = OBFrameType.OB_FRAME_COLOR then
    if videoFrame.format = OBFormat.OB_FORMAT_MJPG then
      cv.imdecode ⟨2, 1, videoFrame.dataSize, MatType.CV_8UC1, videoFrame.data⟩ 1
    else if videoFrame.format = OBFormat.OB_FORMAT_NV21 then
      cv.cvtColor ⟨2, videoFrame.height * 3 % 2 ^ 32 / 2, videoFrame.width, MatType.CV_8UC1,
        videoFrame.data⟩ ColorCode.COLOR_YUV2BGR_NV21
    else if videoFrame.format = OBFormat.OB_FORMAT_YUYV
        ∨ videoFrame.format = OBFormat.OB_FORMAT_YUY2 then
      cv.cvtColor ⟨2, videoFrame.height, videoFrame.width, MatType.CV_8UC2, videoFrame.data⟩
        ColorCode.COLOR_YUV2BGR_YUY2
    else if videoFrame.format = OBFormat.OB_FORMAT_RGB888 then
      cv.cvtColor ⟨2, videoFrame.height, videoFrame.width, MatType.CV_8UC3, videoFrame.data⟩
        ColorCode.COLOR_RGB2BGR
    else pure Mat.default
  else if videoFrame.format = OBFormat.OB_FORMAT_Y16
      ∨ videoFrame.format = OBFormat.OB_FORMAT_YUYV
      ∨ videoFrame.format = OBFormat.OB_FORMAT_YUY2 then
    let rawMat : Mat :=
      ⟨2, videoFrame.height, videoFrame.width, MatType.CV_16UC1, videoFrame.data⟩
    let scale : F64 :=
      if videoFrame.type = OBFrameType.OB_FRAME_DEPTH then
        IEEE.div (IEEE.toDouble (IEEE.ofRatio 1 1))
          (pow 2 ((videoFrame.pixelAvailableBitSize : Int) - 10))
      else
        IEEE.div (IEEE.toDouble (IEEE.ofRatio 1 1))
          (pow 2 ((videoFrame.pixelAvailableBitSize : Int) - 8))
    cv.convertScaleAbs rawMat scale
  else pure Mat.default

/-- The body of the loop of `processFrames` for a frame that passed the guard, after
the cast to `ob::VideoFrame`: the `rstMat` that is pushed. -/
def frameEntry (cv : OpenCV) (w : Window) (videoFrame : Frame) : Except CvError Mat := do
  let rstMat ← decodeFrame cv videoFrame
  let averageFps :=
    if videoFrame.type = OBFrameType.OB_FRAME_DEPTH then w.mAverageDepthFps
    else if videoFrame.type = OBFrameType.OB_FRAME_IR then w.mAverageIrFps
    else w.mAverageColorFps
  if w.mShowInfo then drawInfo cv rstMat videoFrame averageFps else pure rstMat

/-- The loop of `processFrames` from the frames still to visit and the `mats` pushed so
far. A null frame is `none`. -/
def processLoop (cv : OpenCV) (w : Window) :
    List (Option Frame) → List Mat → Except CvError (List Mat)
  | [], mats => pure mats
  | frame :: rest, mats =>
    match frame with
    | none => processLoop cv w rest mats
    | some videoFrame =>
      if videoFrame.dataSize < 1024 then processLoop cv w rest mats
      else do
        let rstMat ← frameEntry cv w videoFrame
        processLoop cv w rest (mats ++ [rstMat])

/-- The method `processFrames`. An exception of a library call leaves the method. -/
def processFrames (cv : OpenCV) (w : Window) (frames : List (Option Frame)) :
    Except CvError (List Mat) :=
  if w.mWindowClose then pure [] else processLoop cv w frames []

/-- The loops of `RENDER_ONE_ROW` and `RENDER_ONE_COLOUMN`: `outMat` is joined with each
`mat` by `concat` once it has dimensions. -/
def concatLoop (concat : Mat → Mat → Except CvError Mat) :
    List Mat → Mat → Except CvError Mat
  | [], outMat => pure outMat
  | mat :: rest, outMat =>
    if 0 < outMat.dims then do
      let joined ← concat outMat mat
      concatLoop concat rest joined
    else concatLoop concat rest mat

/-- The cell `(i, j)` of the grid: the image `mats.at(index)` when `index < count`,
and a black placeholder otherwise. -/
def gridCell (w : Window) (mats : List Mat) (cols rows : Int) (i j : Nat) : Except CvError Mat :=
  let index : Int := (i : Int) * cols + (j : Int)
  if index < (mats.length : Int) then
    match mats.get? index.toNat with
    | some mat => pure mat
    | none => .error ⟨"invalid vector subscript"⟩
  else
    let numRows := Int.tdiv w.mHeight rows
    let numCols := Int.tdiv w.mWidth cols
    Mat.zeros numRows numCols MatType.CV_8UC3

/-- The inner loop of `RENDER_GRID` over the columns `j` still to visit: `lineMat` is
joined with each cell once it has dimensions. -/
def gridLineLoop (cv : OpenCV) (w : Window) (mats : List Mat) (cols rows : Int) (i : Nat) :
    List Nat → Mat → Except CvError Mat
  | [], lineMat => pure lineMat
  | j :: rest, lineMat => do
    let mat ← gridCell w mats cols rows i j
    let joined ← if 0 < lineMat.dims then cv.hconcat lineMat mat else pure mat
    gridLineLoop cv w mats cols rows i rest joined

/-- The outer loop of `RENDER_GRID` over the lines `i` still to visit. -/
def gridLoop (cv : OpenCV) (w : Window) (mats : List Mat) (cols rows : Int) :
    List Nat → Mat → Except CvError Mat
  | [], outMat => pure outMat
  | i :: rest, outMat => do
    let lineMat ← gridLineLoop cv w mats cols rows i (List.range cols.toNat) Mat.default
    let joined ← if 0 < outMat.dims then cv.vconcat outMat lineMat else pure lineMat
    gridLoop cv w mats cols rows rest joined

/-- The loop of `RENDER_OVERLAY` over `mats.at(1)`, `mats.at(2)`, ... -/
def overlayLoop (cv : OpenCV) : List Mat → Mat → Except CvError Mat
  | [], outMat => pure outMat
  | mat :: rest, outMat => do
    let joined ← cv.bitwise_or outMat mat
    overlayLoop cv rest joined

/-- The body of `renderMats(mats, renderType)` inside its function `try` block. -/
def renderMatsBody (cv : OpenCV) (w : Window) (mats : List Mat) (renderType : RenderType) :
    Except CvError (List Effect) :=
  if w.mWindowClose ∨ mats.isEmpty then pure []
  else
    match renderType with
    | RenderType.RENDER_SINGLE =>
      match mats.get? 0 with
      | some mat => imshow w.mTitle mat
      | none => .error ⟨"invalid vector subscript"⟩
    | RenderType.RENDER_ONE_ROW => do
      let outMat ← concatLoop cv.hconcat mats Mat.default
      imshow w.mTitle outMat
    | RenderType.RENDER_ONE_COLOUMN => do
      let outMat ← concatLoop cv.vconcat mats Mat.default
      imshow w.mTitle outMat
    | RenderType.RENDER_GRID => do
      let cols := (gridDims mats.length).1
      let rows := (gridDims mats.length).2
      let outMat ← gridLoop cv w mats cols rows (List.range rows.toNat) Mat.default
      imshow w.mTitle outMat
    | RenderType.RENDER_OVERLAY => do
      let outMat ← overlayLoop cv (mats.drop 1) Mat.default
      imshow w.mTitle outMat
    | RenderType.other code =>
      .error ⟨"Render type not supported: " ++ toString code ++ "\n"⟩

/-- The method `renderMats(mats, renderType)`: the handler of the function `try` block
writes `what()` to `std::cerr` and the method returns. -/
def renderMats (cv : OpenCV) (w : Window) (mats : List Mat) (renderType : RenderType) :
    List Effect :=
  match renderMatsBody cv w mats renderType with
  | .ok effects => effects
  | .error e => [Effect.cerr e.what]

/-- One channel of the blend: `static_cast<uint8_t>(out * invAlpha + resize * alpha)`,
the two `uint8_t` operands converted to `float`. -/
def blendChannel (alpha invAlpha : F32) (out resize : Fin 256) : Fin 256 :=
  Fin.ofNat (IEEE.toUInt8
    (IEEE.add (IEEE.mul (IEEE.ofInt (out.val : Int)) invAlpha)
      (IEEE.mul (IEEE.ofInt (resize.val : Int)) alpha)))

/-- The body of the inner loop of `renderMats(mats, alpha)`: the three assignments to
`outRgb`, a reference into `outMat`. -/
def blendPixel (alpha invAlpha : F32) (resizeMat outMat : Mat) (i j : Nat) : Mat :=
  let o0 := outMat.set3 i j 0 (blendChannel alpha invAlpha (outMat.at3 i j 0) (resizeMat.at3 i j 0))
  let o1 := o0.set3 i j 1 (blendChannel alpha invAlpha (o0.at3 i j 1) (resizeMat.at3 i j 1))
  o1.set3 i j 2 (blendChannel alpha invAlpha (o1.at3 i j 2) (resizeMat.at3 i j 2))

/-- The two loops of `renderMats(mats, alpha)` over `outMat.rows` and `outMat.cols`. -/
def blendMats (alpha invAlpha : F32) (resizeMat outMat : Mat) : Mat :=
  (List.range outMat.rows).foldl
    (fun m i => (List.range outMat.cols).foldl (fun m j => blendPixel alpha invAlpha resizeMat m i j) m)
    outMat

/-- The body of `renderMats(mats, alpha)` inside its function `try` block. -/
def renderMatsAlphaBody (cv : OpenCV) (w : Window) (mats : List Mat) (alpha : F32) :
    Except CvError (List Effect) :=
  if w.mWindowClose then pure []
  else
    match mats with
    | [mat0, mat1] => do
      let invAlpha : F32 := IEEE.sub (IEEE.ofRatio 1 1) alpha
      let outMat ← cv.resize mat0 w.mWidth w.mHeight
      let resizeMat ← cv.resize mat1 w.mWidth w.mHeight
      imshow w.mTitle (blendMats alpha invAlpha resizeMat outMat)
    | _ => pure [Effect.cout "Window::renderMats: Only support the saturation with two mats!"]

/-- The method `renderMats(mats, alpha)`, the overload for the alpha blend. -/
def renderMatsAlpha (cv : OpenCV) (w : Window) (mats : List Mat) (alpha : F32) : List Effect :=
  match renderMatsAlphaBody cv w mats alpha with
  | .ok effects => effects
  | .error e => [Effect.cerr e.what]

/-- The method `render(frames, renderType)`. -/
def render (cv : OpenCV) (w : Window) (key : Int) (frames : List (Option Frame))
    (renderType : RenderType) : Except CvError (Window × List Effect) :=
  let (w1, effects, closed) := w.ScanKeyPress key
  if closed then pure (w1, effects)
  else do
    let mats ← processFrames cv w1 frames
    pure (w1, effects ++ renderMats cv w1 mats renderType)

end Window

/-! ## Main.cpp

The two threads share `gSpFrameSet` and `gMutexFrames`. A step of either thread is a
function on `Shared`; `gMutexFrames` is true while the mutex is owned. -/

/-- An `ob::FrameSet` as the program reads it; a null frame is `none`. -/
structure FrameSet where
  colorFrame : Option Frame
  depthFrame : Option Frame
  deriving DecidableEq, Repr

structure Shared where
  gSpFrameSet : Option FrameSet := none
  gMutexFrames : Bool := false
  deriving DecidableEq, Repr

/-- One turn of the loop of `waitFramesThread`, for the value `frameSet` that
`pipe.waitForFrames(100)` returns: a null set is passed over, and the slot is assigned
only when `try_lock` gets the mutex, which is released at the end of the turn. -/
def waitFramesStep (frameSet : Option FrameSet) (g : Shared) : Shared :=
  match frameSet with
  | none => g
  | some fs => if g.gMutexFrames then g else { g with gSpFrameSet := some fs }

/-- The turns of `waitFramesThread` for the non-null frame sets `frameSets`, in order. -/
def publishAll (frameSets : List FrameSet) (g : Shared) : Shared :=
  frameSets.foldl (fun g fs => waitFramesStep (some fs) g) g

/-- The `mats` that `GetSynchronizedFrames` builds from the frame set in the slot:
the two frames are decoded only when both are non-null. -/
def matsOf (cv : OpenCV) (app : Window) (frameSet : FrameSet) : Except CvError (List Mat) :=
  let colorFrame := frameSet.colorFrame
  let depthFrame := frameSet.depthFrame
  if colorFrame.isSome ∧ depthFrame.isSome then app.processFrames cv [colorFrame, depthFrame]
  else pure []

/-- The function `GetSynchronizedFrames`: the returned `mats` (or the exception that
leaves it) and the shared state after it. There is no result where the mutex is owned
(the lock waits) and where `gSpFrameSet` is null (it is dereferenced). An exception
leaves the function before the slot is reset. -/
def GetSynchronizedFrames (cv : OpenCV) (app : Window) (g : Shared) :
    Option (Except CvError (List Mat) × Shared) :=
  if g.gMutexFrames then none
  else
    match g.gSpFrameSet with
    | none => none
    | some frameSet =>
      match matsOf cv app frameSet with
      | .ok mats => some (.ok mats, { g with gSpFrameSet := none })
      | .error e => some (.error e, g)

/-- Modelled from the spec: the modules FaceDetection and HumanObjectTracker, which are
not among the sources, are "external collaborators consumed as black-box functions
(input image → output mask / output landmark set)"; `Visualize` and `copyTo` are the
drawing of the detected faces on the color image and `cv::Mat::copyTo` with a mask. -/
structure Collaborators where
  Detect : Mat → List (Int × Int)
  ProcessFrameWithFaces : Mat → List (Int × Int) → Mat
  Visualize : Mat → Mat
  copyTo : Mat → Mat → Mat → Mat

/-- The constant `GREEN_SCREEN_COLOR` as the three bytes of a pixel. -/
def GREEN_SCREEN_COLOR : List (Fin 256) := [64, 177, 0]

def WINDOW_TITLE : String :=
  "Multiple-Person Background Removal Using Orbbec Femto Developer Kit"

/-- The state of the consumer loop: the window, the shared slot and the static
`frameNumber`. -/
structure MainState where
  app : Window
  shared : Shared
  frameNumber : Nat
  deriving DecidableEq, Repr

/-- The function `ProcessAndDisplayFrameSet`, for the value `key` that `cv::waitKey(1)`
returns if it is called. -/
def ProcessAndDisplayFrameSet (cv : OpenCV) (ext : Collaborators) (key : Int) (s : MainState) :
    Option (Except CvError (MainState × List Effect)) :=
  match s.shared.gSpFrameSet with
  | none =>
    some (do
      let (app, effects) ← s.app.render cv key [] RenderType.RENDER_SINGLE
      pure ({ s with app := app }, effects))
  | some _ =>
    match GetSynchronizedFrames cv s.app s.shared with
    | none => none
    | some (.error e, _) => some (.error e)
    | some (.ok mats, shared) =>
      let s1 := { s with shared := shared, frameNumber := s.frameNumber + 1 }
      match mats with
      | [imgColor, imgDepth] =>
        some (do
          let faceCenters := ext.Detect imgColor
          let imgTrackerAsMask := ext.ProcessFrameWithFaces imgDepth faceCenters
          let imgOut : Mat := ⟨2, imgColor.rows, imgColor.cols, MatType.CV_8UC3,
            (List.replicate (imgColor.rows * imgColor.cols) GREEN_SCREEN_COLOR).flatten⟩
          let imgOutMasked := ext.copyTo imgColor imgOut imgTrackerAsMask
          let imgColorMarked := ext.Visualize imgColor
          let imgDepthRgb ← cv.cvtColor imgDepth ColorCode.COLOR_GRAY2RGB
          let imgDepthText ← cv.putText imgDepthRgb "Depth" (5, 15)
          let imgOutText ← cv.putText imgOutMasked "Output" (5, 15)
          pure (s1, [Effect.detect imgColor, Effect.track imgDepth faceCenters]
            ++ s1.app.renderMats cv [imgColorMarked, imgOutText, imgDepthText]
              RenderType.RENDER_ONE_ROW))
      | _ => some (pure (s1, []))

/-! ## An implementation of the OpenCV interface

By `cvModel` the definitions above can be evaluated on concrete images. It is small:
text is not rasterised, the compressed decoder finds no image, and a conversion from
YUV keeps the luma only. -/

namespace CvModel

def tooSmall : CvError := ⟨"(-215:Assertion failed) sizes or types of the input arrays do not match"⟩

/-- The row `i` of the buffer of `m`. -/
def row (m : Mat) (i : Nat) : List (Fin 256) := (m.data.drop (i * m.step)).take m.step

def hconcat (a b : Mat) : Except CvError Mat :=
  if a.rows = b.rows ∧ a.type = b.type then
    .ok ⟨2, a.rows, a.cols + b.cols, a.type, (List.range a.rows).flatMap (fun i => row a i ++ row b i)⟩
  else .error tooSmall

def vconcat (a b : Mat) : Except CvError Mat :=
  if a.cols = b.cols ∧ a.type = b.type then .ok ⟨2, a.rows + b.rows, a.cols, a.type, a.data ++ b.data⟩
  else .error tooSmall

def bitwise_or (a b : Mat) : Except CvError Mat :=
  if a.rows = b.rows ∧ a.cols = b.cols ∧ a.type = b.type then
    .ok { a with data := List.zipWith (fun x y => Fin.ofNat (x.val ||| y.val)) a.data b.data }
  else .error tooSmall

/-- Nearest neighbour: the byte `k` of the output is taken from the source pixel that the
output pixel of `k` falls on. -/
def resize (src : Mat) (width height : Int) : Except CvError Mat :=
  if src.hasArea ∧ 0 < width ∧ 0 < height then
    let es := src.type.elemSize
    let h := height.toNat
    let w := width.toNat
    .ok ⟨2, h, w, src.type, (List.range (h * w * es)).map (fun k =>
      let i := k / (w * es)
      let j := k % (w * es) / es
      let c := k % es
      src.data.getD ((i * src.rows / h) * src.step + (j * src.cols / w) * es + c) 0)⟩
  else .error ⟨"(-215:Assertion failed) !ssize.empty() in function 'cv::resize'"⟩

/-- The sample `|x * scale|` rounded to the nearest integer and saturated to a byte. -/
def scaleAbs (scale : F64) (x : Nat) : Fin 256 :=
  match IEEE.mul (IEEE.ofInt (x : Int)) scale with
  | IEEE.finite _ mag => Fin.ofNat (min (IEEE.roundHalfEven mag (2 ^ 1074)) 255)
  | IEEE.inf _ => 255
  | IEEE.nan => 0

/-- The 16-bit little-endian samples of a buffer. -/
def samples16 : List (Fin 256) → List Nat
  | lo :: hi :: rest => (lo.val + 256 * hi.val) :: samples16 rest
  | _ => []

def convertScaleAbs (src : Mat) (scale : F64) : Except CvError Mat :=
  match src.type with
  | MatType.CV_16UC1 =>
    .ok ⟨2, src.rows, src.cols, MatType.CV_8UC1,
      ((samples16 src.data).take (src.rows * src.cols)).map (scaleAbs scale)⟩
  | _ => .ok { src with data := src.data.map (fun x => scaleAbs scale x.val) }

/-- The pixels of a three channel buffer with the first and third byte exchanged. -/
def swap13 : List (Fin 256) → List (Fin 256)
  | r :: g :: b :: rest => b :: g :: r :: swap13 rest
  | rest => rest

def cvtColor (src : Mat) (code : ColorCode) : Except CvError Mat :=
  match code with
  | ColorCode.COLOR_RGB2BGR => .ok { src with data := swap13 src.data }
  | ColorCode.COLOR_GRAY2RGB =>
    .ok ⟨2, src.rows, src.cols, MatType.CV_8UC3, src.data.flatMap (fun y => [y, y, y])⟩
  | ColorCode.COLOR_YUV2BGR_NV21 =>
    .ok ⟨2, src.rows * 2 / 3, src.cols, MatType.CV_8UC3,
      (src.data.take (src.rows * 2 / 3 * src.cols)).flatMap (fun y => [y, y, y])⟩
  | ColorCode.COLOR_YUV2BGR_YUY2 =>
    .ok ⟨2, src.rows, src.cols, MatType.CV_8UC3,
      (samples16 src.data).flatMap (fun s => [Fin.ofNat (s % 256), Fin.ofNat (s % 256),
        Fin.ofNat (s % 256)])⟩

end CvModel

/-- An implementation of the interface `OpenCV`. -/
def cvModel : OpenCV where
  imdecode := fun _ _ => .ok Mat.default
  cvtColor := CvModel.cvtColor
  convertScaleAbs := CvModel.convertScaleAbs
  putText := fun img _ _ => .ok img
  hconcat := CvModel.hconcat
  vconcat := CvModel.vconcat
  bitwise_or := CvModel.bitwise_or
  resize := CvModel.resize
  bitwise_or_noArea := by
    intro a b r ha h
    unfold CvModel.bitwise_or at h
    split at h
    · injection h with h
      subst h
      simpa [Mat.hasArea] using ha
    · cases h
  resize_spec := by
    intro src width height r h
    unfold CvModel.resize at h
    split at h
    · rename_i hc
      injection h with h
      subst h
      refine ⟨?_, ?_, rfl, ?_⟩
      · simpa using Int.toNat_of_nonneg (le_of_lt hc.2.2)
      · simpa using Int.toNat_of_nonneg (le_of_lt hc.2.1)
      · simp
    · cases h

/-- An implementation of the collaborators: no face is found and the mask is empty. -/
def extModel : Collaborators where
  Detect := fun _ => []
  ProcessFrameWithFaces := fun img _ => { img with data := img.data.map (fun _ => 0) }
  Visualize := fun img => img
  copyTo := fun _ dst _ => dst

/-! ## Predicates of the statements and concrete data -/

/-- The frame formats that the chain of tests in `processFrames` decodes: the dispatch
table of the specification. -/
def Frame.supported (f : Frame) : Bool :=
  if f.type = OBFrameType.OB_FRAME_COLOR then
    f.format ∈ [OBFormat.OB_FORMAT_MJPG, OBFormat.OB_FORMAT_NV21, OBFormat.OB_FORMAT_YUYV,
      OBFormat.OB_FORMAT_YUY2, OBFormat.OB_FORMAT_RGB888]
  else f.format ∈ [OBFormat.OB_FORMAT_Y16, OBFormat.OB_FORMAT_YUYV, OBFormat.OB_FORMAT_YUY2]

/-- The guard of the loop of `processFrames`: the frame is non-null and has at least
1024 bytes. -/
def passesGuard : Option Frame → Bool
  | none => false
  | some f => decide (1024 ≤ f.dataSize)

/-- A color frame of one RGB888 pixel. -/
def colorFrame888 : Frame :=
  ⟨OBFrameType.OB_FRAME_COLOR, OBFormat.OB_FORMAT_RGB888, 2048, 1, 1, 8, 0, 0, [1, 2, 3]⟩

/-- A color frame tagged Y16, a combination that `processFrames` does not decode. -/
def colorFrameY16 : Frame :=
  ⟨OBFrameType.OB_FRAME_COLOR, OBFormat.OB_FORMAT_Y16, 2048, 1, 1, 16, 0, 0, [1, 2]⟩

/-- A depth frame of two Y16 samples with 12 valid bits. -/
def depthFrame12 : Frame :=
  ⟨OBFrameType.OB_FRAME_DEPTH, OBFormat.OB_FORMAT_Y16, 2048, 2, 1, 12, 0, 0, [255, 3, 3, 4]⟩

/-- A depth frame below the size threshold. -/
def depthFrameShort : Frame :=
  ⟨OBFrameType.OB_FRAME_DEPTH, OBFormat.OB_FORMAT_Y16, 1023, 2, 1, 12, 0, 0, [255, 3, 3, 4]⟩

def frameSetA : FrameSet := ⟨some colorFrame888, some depthFrame12⟩

def frameSetB : FrameSet := ⟨some colorFrame888, none⟩

/-- A window of 3 by 1 pixels. -/
def appModel : Window := { mTitle := WINDOW_TITLE, mWidth := 3, mHeight := 1 }

/-- A three channel image with every byte `v`. -/
def image3 (rows cols : Nat) (v : Fin 256) : Mat :=
  ⟨2, rows, cols, MatType.CV_8UC3, List.replicate (rows * cols * 3) v⟩

/-- A magnitude with a significand of at most `mant + 1` bits is a value of the format. -/
def IEEE.Representable (fmt : FloatFormat) (v : Nat) : Prop :=
  ∃ m k, v = m * 2 ^ k ∧ m < 2 ^ (fmt.mant + 1)

/-- The shape of an image: what a write of a pixel leaves alone. -/
def SameShape (o m : Mat) : Prop :=
  m.rows = o.rows ∧ m.cols = o.cols ∧ m.type = o.type ∧ m.dims = o.dims
    ∧ m.data.length = o.data.length

/-! ## Theorems -/

/-! ### Rounding -/

namespace IEEE

theorem ilog2Aux_spec (n : Nat) : ∀ (j acc : Nat), 2 ^ acc ≤ n → n < 2 ^ (acc + 2 ^ j) →
    2 ^ ilog2Aux n j acc ≤ n ∧ n < 2 ^ (ilog2Aux n j acc + 1)
  | 0, acc, h1, h2 => by
    simpa [ilog2Aux] using And.intro h1 h2
  | j + 1, acc, h1, h2 => by
    unfold ilog2Aux
    by_cases h : 2 ^ (acc + 2 ^ j) ≤ n
    · rw [if_pos h]
      apply ilog2Aux_spec n j _ h
      have : acc + 2 ^ j + 2 ^ j = acc + 2 ^ (j + 1) := by rw [pow_succ]; omega
      rw [this]; exact h2
    · rw [if_neg h]
      exact ilog2Aux_spec n j acc h1 (Nat.lt_of_not_le h)

theorem ilog2_spec {n : Nat} (h0 : 0 < n) (hn : n < 2 ^ 8192) :
    2 ^ ilog2 n ≤ n ∧ n < 2 ^ (ilog2 n + 1) := by
  apply ilog2Aux_spec n 13 0
  · simpa using h0
  · simpa using hn

theorem ilog2_zero : ilog2 0 = 0 := by decide

theorem quantum_spec (fmt : FloatFormat) {num den : Nat} (hd : 0 < den)
    (hn : num < 2 ^ 8192) (hden : den < 2 ^ 8192) :
    quantum fmt num den = 0 ∨ den * 2 ^ (quantum fmt num den + fmt.mant) ≤ num := by
  unfold quantum
  by_cases hk : 0 < ilog2 num - ilog2 den - fmt.mant
  · have hnum : 0 < num := by
      rcases Nat.eq_zero_or_pos num with h | h
      · subst h; rw [ilog2_zero] at hk; omega
      · exact h
    by_cases hlt : num < den * 2 ^ (ilog2 num - ilog2 den - fmt.mant + fmt.mant)
    · simp only [hk, hlt, and_self, if_true]
      right
      have h1 := (ilog2_spec hnum hn).1
      have h2 := (ilog2_spec hd hden).2
      have e : ilog2 den + 1 + (ilog2 num - ilog2 den - fmt.mant - 1 + fmt.mant) = ilog2 num := by
        omega
      calc den * 2 ^ (ilog2 num - ilog2 den - fmt.mant - 1 + fmt.mant)
          ≤ 2 ^ (ilog2 den + 1) * 2 ^ (ilog2 num - ilog2 den - fmt.mant - 1 + fmt.mant) :=
            Nat.mul_le_mul_right _ (Nat.le_of_lt h2)
        _ = 2 ^ ilog2 num := by rw [← pow_add, e]
        _ ≤ num := h1
    · simp only [hk, hlt, and_false, if_false]
      right; exact Nat.le_of_not_lt hlt
  · left
    have : ilog2 num - ilog2 den - fmt.mant = 0 := by omega
    simp [this]

theorem roundHalfEven_err (num d : Nat) (hd : 0 < d) :
    2 * (roundHalfEven num d * d) ≤ 2 * num + d ∧ 2 * num ≤ 2 * (roundHalfEven num d * d) + d := by
  have hdm := Nat.div_add_mod num d
  have hr := Nat.mod_lt num hd
  simp only [roundHalfEven]
  generalize num / d = q at hdm
  generalize num % d = r at hdm hr
  split_ifs with h1 h2
  · constructor <;> nlinarith
  · have : q % 2 = 0 ∨ q % 2 = 1 := by omega
    rcases this with h | h <;> rw [h] <;> constructor <;> nlinarith
  · constructor <;> nlinarith

theorem roundHalfEven_mul (d x : Nat) (hd : 0 < d) : roundHalfEven (d * x) d = x := by
  simp [roundHalfEven, Nat.mul_div_cancel_left _ hd, hd]

/-- Rounding moves a value by at most half a quantum. -/
theorem roundMag_err (fmt : FloatFormat) (num den : Nat) (hd : 0 < den) :
    2 * (roundMag fmt num den * den) ≤ 2 * num + den * 2 ^ quantum fmt num den ∧
    2 * num ≤ 2 * (roundMag fmt num den * den) + den * 2 ^ quantum fmt num den := by
  simp only [roundMag]
  generalize quantum fmt num den = kb
  have hdpos : 0 < den * 2 ^ kb := Nat.mul_pos hd (by positivity)
  have h := roundHalfEven_err num (den * 2 ^ kb) hdpos
  have key : roundHalfEven num (den * 2 ^ kb) * 2 ^ kb * den
      = roundHalfEven num (den * 2 ^ kb) * (den * 2 ^ kb) := by ring
  rw [key]; exact h

theorem roundMag_exact (fmt : FloatFormat) {v den : Nat} (hd : 0 < den)
    (hv : Representable fmt v) (hn : v * den < 2 ^ 8192) (hden : den < 2 ^ 8192) :
    roundMag fmt (v * den) den = v := by
  obtain ⟨m, k, rfl, hm⟩ := hv
  have hq := quantum_spec fmt hd hn hden
  simp only [roundMag]
  generalize quantum fmt (m * 2 ^ k * den) den = kb at hq
  have hkb : kb ≤ k ∨ m = 0 := by
    rcases hq with h | h
    · left; omega
    · rcases Nat.eq_zero_or_pos m with h0 | h0
      · right; exact h0
      left
      have h1 : 2 ^ (kb + fmt.mant) ≤ m * 2 ^ k := by
        have : den * 2 ^ (kb + fmt.mant) ≤ den * (m * 2 ^ k) := by
          calc den * 2 ^ (kb + fmt.mant) ≤ m * 2 ^ k * den := h
            _ = den * (m * 2 ^ k) := by ring
        exact Nat.le_of_mul_le_mul_left this hd
      have h2 : m * 2 ^ k < 2 ^ (fmt.mant + 1) * 2 ^ k :=
        Nat.mul_lt_mul_of_pos_right hm (by positivity)
      rw [← pow_add] at h2
      have h3 := lt_of_le_of_lt h1 h2
      have := (Nat.pow_lt_pow_iff_right (by norm_num : 1 < 2)).1 h3
      omega
  rcases hkb with hkb | hm0
  · obtain ⟨t, rfl⟩ := Nat.exists_eq_add_of_le hkb
    have e : m * 2 ^ (kb + t) * den = (den * 2 ^ kb) * (m * 2 ^ t) := by
      rw [pow_add]; ring
    have hdpos : 0 < den * 2 ^ kb := Nat.mul_pos hd (by positivity)
    rw [e, roundHalfEven_mul _ _ hdpos, pow_add]; ring
  · subst hm0
    simp [roundHalfEven]

/-- The relative error of rounding: at most `2^-(mant+1)` of the value, plus half a unit
in the subnormal range. -/
theorem roundMag_rel (fmt : FloatFormat) {num den : Nat} (hd : 0 < den)
    (hn : num < 2 ^ 8192) (hden : den < 2 ^ 8192) :
    2 ^ (fmt.mant + 1) * (roundMag fmt num den * den)
        ≤ 2 ^ (fmt.mant + 1) * num + num + 2 ^ fmt.mant * den ∧
    2 ^ (fmt.mant + 1) * num
        ≤ 2 ^ (fmt.mant + 1) * (roundMag fmt num den * den) + num + 2 ^ fmt.mant * den := by
  obtain ⟨e1, e2⟩ := roundMag_err fmt num den hd
  have hq := quantum_spec fmt hd hn hden
  generalize roundMag fmt num den * den = R at e1 e2
  generalize quantum fmt num den = kb at e1 e2 hq
  rw [pow_succ]
  rcases hq with h | h
  · subst h
    simp only [pow_zero, mul_one] at e1 e2
    generalize 2 ^ fmt.mant = M at *
    constructor <;> nlinarith
  · rw [pow_add] at h
    generalize 2 ^ fmt.mant = M at *
    generalize 2 ^ kb = K at *
    have e1m := Nat.mul_le_mul_left M e1
    have e2m := Nat.mul_le_mul_left M e2
    constructor <;> nlinarith

/-- The quantum is not too fine: the quotient by it has at most `mant + 1` bits. -/
theorem quantum_upper (fmt : FloatFormat) {num den : Nat} (hd : 0 < den) (h0 : 0 < num)
    (hn : num < 2 ^ 8192) (hden : den < 2 ^ 8192) :
    num < den * 2 ^ (quantum fmt num den + fmt.mant + 1) := by
  have hnum := (ilog2_spec h0 hn).2
  have hdl := (ilog2_spec hd hden).1
  have key : ∀ k, ilog2 num + 1 ≤ ilog2 den + k → num < den * 2 ^ k := by
    intro k hk
    calc num < 2 ^ (ilog2 num + 1) := hnum
      _ ≤ 2 ^ (ilog2 den + k) := Nat.pow_le_pow_right (by norm_num) hk
      _ = 2 ^ ilog2 den * 2 ^ k := pow_add _ _ _
      _ ≤ den * 2 ^ k := Nat.mul_le_mul_right _ hdl
  unfold quantum
  by_cases hk : 0 < ilog2 num - ilog2 den - fmt.mant
  · by_cases hlt : num < den * 2 ^ (ilog2 num - ilog2 den - fmt.mant + fmt.mant)
    · simp only [hk, hlt, and_self, if_true]
      have e : ilog2 num - ilog2 den - fmt.mant - 1 + fmt.mant + 1
          = ilog2 num - ilog2 den - fmt.mant + fmt.mant := by omega
      rw [e]; exact hlt
    · simp only [hk, hlt, and_false, if_false]
      exact key _ (by omega)
  · have e : ilog2 num - ilog2 den - fmt.mant = 0 := by omega
    simp only [e, lt_self_iff_false, false_and, if_false]
    exact key _ (by omega)

/-- The result of rounding is a value of the format. -/
theorem roundMag_representable (fmt : FloatFormat) {num den : Nat} (hd : 0 < den)
    (hn : num < 2 ^ 8192) (hden : den < 2 ^ 8192) :
    Representable fmt (roundMag fmt num den) := by
  rcases Nat.eq_zero_or_pos num with h0 | h0
  · subst h0
    exact ⟨0, 0, by simp [roundMag, roundHalfEven], by positivity⟩
  have hu := quantum_upper fmt hd h0 hn hden
  simp only [roundMag]
  generalize quantum fmt num den = kb at hu
  have hdpos : 0 < den * 2 ^ kb := Nat.mul_pos hd (by positivity)
  have hq : num / (den * 2 ^ kb) < 2 ^ (fmt.mant + 1) := by
    apply Nat.div_lt_of_lt_mul
    calc num < den * 2 ^ (kb + fmt.mant + 1) := hu
      _ = den * 2 ^ kb * 2 ^ (fmt.mant + 1) := by rw [Nat.add_assoc, pow_add]; ring
  have hr : roundHalfEven num (den * 2 ^ kb) ≤ num / (den * 2 ^ kb) + 1 := by
    simp only [roundHalfEven]
    split_ifs <;> omega
  rcases Nat.lt_or_ge (roundHalfEven num (den * 2 ^ kb)) (2 ^ (fmt.mant + 1)) with hlt | hge
  · exact ⟨_, kb, rfl, hlt⟩
  · have e : roundHalfEven num (den * 2 ^ kb) = 2 ^ (fmt.mant + 1) := by omega
    refine ⟨2 ^ fmt.mant, kb + 1, ?_, Nat.pow_lt_pow_right (by norm_num) (by omega)⟩
    rw [e, pow_succ, pow_succ]; ring

end IEEE

/-! ### Grid dimensions -/

theorem isqrtAux_spec (n : Nat) : ∀ k : Nat, n < (k + 1) * (k + 1) →
    isqrtAux n k * isqrtAux n k ≤ n ∧ n < (isqrtAux n k + 1) * (isqrtAux n k + 1)
  | 0, h => by simpa [isqrtAux] using h
  | k + 1, h => by
    unfold isqrtAux
    split
    · rename_i hk
      exact ⟨hk, h⟩
    · rename_i hk
      exact isqrtAux_spec n k (Nat.lt_of_not_le hk)

theorem isqrt_eq_sqrt (n : Nat) : isqrt n = Nat.sqrt n :=
  Nat.eq_sqrt.2 (isqrtAux_spec n n (by nlinarith))

/-- The test of `specGridDims` on the columns is the rule of the specification on the
real square root: `√N - ⌊√N⌋ < 0.01`. -/
theorem spec_cols_rule (n : Nat) :
    Real.sqrt n - (isqrt n : ℝ) < 1 / 100 ↔ 10000 * n < (100 * isqrt n + 1) ^ 2 := by
  rw [sub_lt_iff_lt_add', Real.sqrt_lt' (by positivity)]
  have e : ((isqrt n : ℝ) + 1 / 100) ^ 2 = ((100 * isqrt n + 1) ^ 2 : ℕ) / 10000 := by
    push_cast
    ring
  rw [e, lt_div_iff₀ (by norm_num)]
  have : (n : ℝ) * 10000 = ((10000 * n : ℕ) : ℝ) := by push_cast; ring
  rw [this, Nat.cast_lt]

/-- The test of `specGridDims` on the rows is the rule of the specification on the
fractional part of `N / columns`. -/
theorem spec_rows_rule (n c : Nat) (hc : 0 < c) :
    Int.fract ((n : ℚ) / c) < 1 / 100 ↔ 100 * (n % c) < c := by
  have hc' : (0 : ℚ) < c := by exact_mod_cast hc
  have hfl : ⌊(n : ℚ) / c⌋ = ((n / c : ℕ) : ℤ) := by
    rw [Int.floor_eq_iff]
    constructor
    · rw [le_div_iff₀ hc']
      have := Nat.div_mul_le_self n c
      exact_mod_cast this
    · rw [div_lt_iff₀ hc']
      have := Nat.lt_succ_iff.2 (Nat.le_refl (n / c))
      have h2 : n < (n / c + 1) * c := by
        have := Nat.div_add_mod n c
        have := Nat.mod_lt n hc
        nlinarith
      exact_mod_cast h2
  have hfr : Int.fract ((n : ℚ) / c) = ((n % c : ℕ) : ℚ) / c := by
    have := Nat.div_add_mod n c
    have h3 : (n : ℚ) = c * ((n / c : ℕ) : ℚ) + ((n % c : ℕ) : ℚ) := by exact_mod_cast this.symm
    have h4 : (n : ℚ) / c * c = n := div_mul_cancel₀ _ (ne_of_gt hc')
    rw [Int.fract, hfl, Int.cast_natCast, eq_div_iff (ne_of_gt hc'), sub_mul, h4]
    linarith
  rw [hfr, div_lt_iff₀ hc']
  constructor
  · intro h
    have : (100 : ℚ) * (n % c : ℕ) < c := by linarith
    exact_mod_cast this
  · intro h
    have : (100 : ℚ) * (n % c : ℕ) < c := by exact_mod_cast h
    linarith

/-- C1: in the Grid layout the computed dimensions for 1 image are 1 column and 1 row,
for 4 images 2 columns and 2 rows, and for 5 images 3 columns and 2 rows. -/
theorem grid_dims_one_four_five :
    gridDims 1 = (1, 1) ∧ gridDims 4 = (2, 2) ∧ gridDims 5 = (3, 2) := by
  refine ⟨?_, ?_, ?_⟩ <;> decide

/-- C7 (failing input): for 64 images the fast inverse square root gives 9 columns and
8 rows, where the exact square root under the same 0.01 rule gives 8 and 8. -/
theorem grid_dims_64_differs :
    gridDims 64 = (9, 8) ∧ specGridDims 64 = (8, 8) ∧ gridDims 64 ≠ specGridDims 64 := by
  refine ⟨?_, ?_, ?_⟩ <;> decide

/-- Below 64 images the dimensions from the fast inverse square root are those from
the exact square root. -/
theorem grid_dims_agree_below_64 : ∀ n : Nat, n < 64 → 1 ≤ n → gridDims n = specGridDims n := by
  decide

/-! ### The alpha blend at 0 and 1 -/

theorem invAlpha_zero : IEEE.sub (IEEE.ofRatio 1 1) (IEEE.ofRatio 0 1)
    = (IEEE.finite false (2 ^ 149) : F32) := by decide

theorem invAlpha_one : IEEE.sub (IEEE.ofRatio 1 1) (IEEE.ofRatio 1 1)
    = (IEEE.finite false 0 : F32) := by decide

theorem mul_byte_zero : ∀ o : Fin 256,
    IEEE.mul (IEEE.ofInt (o.val : Int)) (IEEE.finite false 0 : F32) = IEEE.finite false 0 := by
  decide

theorem blend_keep_left : ∀ b : Fin 256,
    (Fin.ofNat (IEEE.toUInt8 (IEEE.add
      (IEEE.mul (IEEE.ofInt (b.val : Int)) (IEEE.finite false (2 ^ 149) : F32))
      (IEEE.finite false 0))) : Fin 256) = b := by
  decide

theorem blend_keep_right : ∀ o : Fin 256,
    (Fin.ofNat (IEEE.toUInt8 (IEEE.add (IEEE.finite false 0 : F32)
      (IEEE.mul (IEEE.ofInt (o.val : Int)) (IEEE.finite false (2 ^ 149) : F32)))) : Fin 256) = o := by
  decide

theorem ofRatio_zero : (IEEE.ofRatio 0 1 : F32) = IEEE.finite false 0 := by decide
theorem ofRatio_one : (IEEE.ofRatio 1 1 : F32) = IEEE.finite false (2 ^ 149) := by decide

theorem blendChannel_zero (b o : Fin 256) :
    Window.blendChannel (IEEE.ofRatio 0 1) (IEEE.sub (IEEE.ofRatio 1 1) (IEEE.ofRatio 0 1)) b o
      = b := by
  unfold Window.blendChannel
  rw [invAlpha_zero, ofRatio_zero, mul_byte_zero o]
  exact blend_keep_left b

theorem blendChannel_one (b o : Fin 256) :
    Window.blendChannel (IEEE.ofRatio 1 1) (IEEE.sub (IEEE.ofRatio 1 1) (IEEE.ofRatio 1 1)) b o
      = o := by
  unfold Window.blendChannel
  rw [invAlpha_one, ofRatio_one, mul_byte_zero b]
  exact blend_keep_right o

theorem list_set_getD_self {α : Type} (d : α) : ∀ (l : List α) (n : Nat), l.set n (l.getD n d) = l
  | [], _ => rfl
  | a :: l, 0 => rfl
  | a :: l, n + 1 => by
    simp only [List.set_cons_succ, List.getD_cons_succ]
    rw [list_set_getD_self d l n]

theorem set3_at3_self (m : Mat) (i j c : Nat) : m.set3 i j c (m.at3 i j c) = m := by
  simp only [Mat.set3, Mat.at3, list_set_getD_self]

theorem blendMats_zero (resizeMat outMat : Mat) :
    Window.blendMats (IEEE.ofRatio 0 1) (IEEE.sub (IEEE.ofRatio 1 1) (IEEE.ofRatio 0 1))
      resizeMat outMat = outMat := by
  have hpix : ∀ (m : Mat) (i j : Nat),
      Window.blendPixel (IEEE.ofRatio 0 1) (IEEE.sub (IEEE.ofRatio 1 1) (IEEE.ofRatio 0 1))
        resizeMat m i j = m := by
    intro m i j
    simp only [Window.blendPixel, blendChannel_zero, set3_at3_self]
  have hfold : ∀ {ι : Type} (l : List ι) (f : Mat → ι → Mat), (∀ m x, f m x = m) →
      ∀ m : Mat, l.foldl f m = m := by
    intro ι l f hf
    induction l with
    | nil => intro m; rfl
    | cons x l ih => intro m; rw [List.foldl_cons, hf, ih]
  unfold Window.blendMats
  apply hfold
  intro m i
  apply hfold
  intro m j
  exact hpix m i j

/-- Folding a step that keeps an invariant and, under it, keeps what earlier steps
established and establishes `P x` at `x`. -/
theorem foldl_establish {σ ι : Type} (step : σ → ι → σ) (Inv : σ → Prop) (P : ι → σ → Prop)
    (hInv : ∀ s x, Inv s → Inv (step s x))
    (hP : ∀ s x, Inv s → P x (step s x))
    (hkeep : ∀ s x y, Inv s → P y s → P y (step s x)) :
    ∀ (l : List ι) (s : σ), Inv s →
      Inv (l.foldl step s) ∧ (∀ y, P y s → P y (l.foldl step s)) ∧ ∀ x ∈ l, P x (l.foldl step s)
  | [], s, hs => ⟨hs, fun _ h => h, fun _ hx => by cases hx⟩
  | a :: l, s, hs => by
    obtain ⟨h1, h2, h3⟩ := foldl_establish step Inv P hInv hP hkeep l (step s a) (hInv s a hs)
    refine ⟨h1, fun y hy => h2 y (hkeep s a y hs hy), ?_⟩
    intro x hx
    rcases List.mem_cons.1 hx with rfl | hx
    · exact h2 _ (hP s _ hs)
    · exact h3 x hx

theorem getD_set_copy (r d : List (Fin 256)) (hlen : d.length = r.length) (k n : Nat) :
    (d.set k (r.getD k 0)).getD n 0 = if n = k then r.getD n 0 else d.getD n 0 := by
  by_cases hn : n = k
  · subst hn
    simp only [if_true]
    by_cases hlt : n < d.length
    · rw [List.getD_eq_getElem _ _ (by simpa using hlt)]
      simp
    · rw [List.getD_eq_default _ _ (by simpa using hlt), List.getD_eq_default _ _ (by omega)]
  · simp only [hn, if_false]
    by_cases hlt : n < d.length
    · rw [List.getD_eq_getElem _ _ (by simpa using hlt), List.getD_eq_getElem _ _ hlt]
      rw [List.getElem_set]
      simp [Ne.symm hn]
    · rw [List.getD_eq_default _ _ (by simpa using hlt), List.getD_eq_default _ _ (by omega)]

theorem foldl_keep {σ ι : Type} (step : σ → ι → σ) (Inv Q : σ → Prop)
    (hInv : ∀ s x, Inv s → Inv (step s x)) (hQ : ∀ s x, Inv s → Q s → Q (step s x)) :
    ∀ (l : List ι) (s : σ), Inv s → Q s → Q (l.foldl step s)
  | [], _, _, hq => hq
  | a :: l, s, hs, hq => foldl_keep step Inv Q hInv hQ l (step s a) (hInv s a hs) (hQ s a hs hq)

theorem blendPixel_one (rz o m : Mat) (hcols : o.cols = rz.cols) (htype : o.type = rz.type)
    (hlen : o.data.length = rz.data.length) (hm : SameShape o m) (i j : Nat) :
    SameShape o (Window.blendPixel (IEEE.ofRatio 1 1)
        (IEEE.sub (IEEE.ofRatio 1 1) (IEEE.ofRatio 1 1)) rz m i j) ∧
    ∀ n, (Window.blendPixel (IEEE.ofRatio 1 1)
        (IEEE.sub (IEEE.ofRatio 1 1) (IEEE.ofRatio 1 1)) rz m i j).data.getD n 0
      = if n = rz.offset3 i j 0 ∨ n = rz.offset3 i j 1 ∨ n = rz.offset3 i j 2
        then rz.data.getD n 0 else m.data.getD n 0 := by
  obtain ⟨h1, h2, h3, h4, h5⟩ := hm
  have hoff : ∀ c, Mat.offset3 ⟨m.dims, m.rows, m.cols, m.type, m.data⟩ i j c = rz.offset3 i j c := by
    intro c
    simp only [Mat.offset3, Mat.step, h2, h3, hcols, htype]
  have hoff' : ∀ (d : List (Fin 256)) c,
      Mat.offset3 ⟨m.dims, m.rows, m.cols, m.type, d⟩ i j c = rz.offset3 i j c := by
    intro d c
    simp only [Mat.offset3, Mat.step, h2, h3, hcols, htype]
  simp only [Window.blendPixel, blendChannel_one, Mat.set3, Mat.at3, hoff']
  constructor
  · refine ⟨h1, h2, h3, h4, ?_⟩
    simp only [List.length_set]
    exact h5
  · intro n
    have hl0 : m.data.length = rz.data.length := by omega
    rw [getD_set_copy rz.data _ (by simp [hl0]) _ n,
      getD_set_copy rz.data _ (by simp [hl0]) _ n, getD_set_copy rz.data _ hl0 _ n]
    by_cases e2 : n = rz.offset3 i j 2
    · simp [e2]
    · by_cases e1 : n = rz.offset3 i j 1
      · simp [e1]
      · by_cases e0 : n = rz.offset3 i j 0
        · simp [e0]
        · simp [e0, e1, e2]

theorem blendMats_one (rz o : Mat) (hcols : o.cols = rz.cols) (htype : o.type = rz.type)
    (hlen : o.data.length = rz.data.length) :
    SameShape o (Window.blendMats (IEEE.ofRatio 1 1)
        (IEEE.sub (IEEE.ofRatio 1 1) (IEEE.ofRatio 1 1)) rz o) ∧
    ∀ i j c, i < o.rows → j < o.cols → c < 3 →
      (Window.blendMats (IEEE.ofRatio 1 1)
        (IEEE.sub (IEEE.ofRatio 1 1) (IEEE.ofRatio 1 1)) rz o).at3 i j c = rz.at3 i j c := by
  have hshape0 : SameShape o o := ⟨rfl, rfl, rfl, rfl, rfl⟩
  -- one pixel
  have pixInv : ∀ (i : Nat) (m : Mat) (j : Nat), SameShape o m →
      SameShape o (Window.blendPixel (IEEE.ofRatio 1 1)
        (IEEE.sub (IEEE.ofRatio 1 1) (IEEE.ofRatio 1 1)) rz m i j) :=
    fun i m j hm => (blendPixel_one rz o m hcols htype hlen hm i j).1
  have pixKeep : ∀ (i : Nat) (m : Mat) (j : Nat) (n : Nat), SameShape o m →
      m.data.getD n 0 = rz.data.getD n 0 →
      (Window.blendPixel (IEEE.ofRatio 1 1)
        (IEEE.sub (IEEE.ofRatio 1 1) (IEEE.ofRatio 1 1)) rz m i j).data.getD n 0
        = rz.data.getD n 0 := by
    intro i m j n hm hn
    rw [(blendPixel_one rz o m hcols htype hlen hm i j).2 n]
    split
    · rfl
    · exact hn
  have pixSet : ∀ (i : Nat) (m : Mat) (j : Nat) (c : Nat), SameShape o m → c < 3 →
      (Window.blendPixel (IEEE.ofRatio 1 1)
        (IEEE.sub (IEEE.ofRatio 1 1) (IEEE.ofRatio 1 1)) rz m i j).data.getD (rz.offset3 i j c) 0
        = rz.data.getD (rz.offset3 i j c) 0 := by
    intro i m j c hm hc
    rw [(blendPixel_one rz o m hcols htype hlen hm i j).2 _]
    have : c = 0 ∨ c = 1 ∨ c = 2 := by omega
    rcases this with rfl | rfl | rfl <;> simp
  -- one line
  have lineAll : ∀ (i : Nat) (m : Mat), SameShape o m →
      SameShape o ((List.range o.cols).foldl (fun m j => Window.blendPixel (IEEE.ofRatio 1 1)
        (IEEE.sub (IEEE.ofRatio 1 1) (IEEE.ofRatio 1 1)) rz m i j) m) ∧
      (∀ n, m.data.getD n 0 = rz.data.getD n 0 →
        ((List.range o.cols).foldl (fun m j => Window.blendPixel (IEEE.ofRatio 1 1)
          (IEEE.sub (IEEE.ofRatio 1 1) (IEEE.ofRatio 1 1)) rz m i j) m).data.getD n 0
          = rz.data.getD n 0) ∧
      (∀ j ∈ List.range o.cols, ∀ c, c < 3 →
        ((List.range o.cols).foldl (fun m j => Window.blendPixel (IEEE.ofRatio 1 1)
          (IEEE.sub (IEEE.ofRatio 1 1) (IEEE.ofRatio 1 1)) rz m i j) m).data.getD
            (rz.offset3 i j c) 0 = rz.data.getD (rz.offset3 i j c) 0) := by
    intro i m hm
    have h := foldl_establish
      (fun m j => Window.blendPixel (IEEE.ofRatio 1 1)
        (IEEE.sub (IEEE.ofRatio 1 1) (IEEE.ofRatio 1 1)) rz m i j)
      (SameShape o)
      (fun j m => ∀ c, c < 3 →
        m.data.getD (rz.offset3 i j c) 0 = rz.data.getD (rz.offset3 i j c) 0)
      (fun s x hs => pixInv i s x hs)
      (fun s x hs c hc => pixSet i s x c hs hc)
      (fun s x y hs hy c hc => pixKeep i s x _ hs (hy c hc))
      (List.range o.cols) m hm
    refine ⟨h.1, ?_, h.2.2⟩
    intro n hn
    exact foldl_keep
      (fun m j => Window.blendPixel (IEEE.ofRatio 1 1)
        (IEEE.sub (IEEE.ofRatio 1 1) (IEEE.ofRatio 1 1)) rz m i j)
      (SameShape o) (fun m => m.data.getD n 0 = rz.data.getD n 0)
      (fun s x hs => pixInv i s x hs) (fun s x hs hq => pixKeep i s x n hs hq)
      (List.range o.cols) m hm hn
  -- all lines
  have h := foldl_establish
    (fun m i => (List.range o.cols).foldl (fun m j => Window.blendPixel (IEEE.ofRatio 1 1)
        (IEEE.sub (IEEE.ofRatio 1 1) (IEEE.ofRatio 1 1)) rz m i j) m)
    (SameShape o)
    (fun i m => ∀ j ∈ List.range o.cols, ∀ c, c < 3 →
      m.data.getD (rz.offset3 i j c) 0 = rz.data.getD (rz.offset3 i j c) 0)
    (fun s x hs => (lineAll x s hs).1)
    (fun s x hs => (lineAll x s hs).2.2)
    (fun s x y hs hy j hj c hc => (lineAll x s hs).2.1 _ (hy j hj c hc))
    (List.range o.rows) o hshape0
  refine ⟨h.1, ?_⟩
  intro i j c hi hj hc
  have hfin := h.2.2 i (List.mem_range.2 hi) j (List.mem_range.2 hj) c hc
  obtain ⟨_, h2, h3, _, _⟩ := h.1
  unfold Window.blendMats at *
  simp only [Mat.at3]
  have hoff : Mat.offset3 ((List.range o.rows).foldl
      (fun m i => (List.range o.cols).foldl (fun m j => Window.blendPixel (IEEE.ofRatio 1 1)
        (IEEE.sub (IEEE.ofRatio 1 1) (IEEE.ofRatio 1 1)) rz m i j) m) o) i j c
      = rz.offset3 i j c := by
    simp only [Mat.offset3, Mat.step]
    rw [h2, h3, hcols, htype]
  rw [hoff]
  exact hfin

/-- C2: for two images of one type on a canvas of positive size, the alpha blend with
`alpha = 0` shows exactly the resized first image, and with `alpha = 1` it shows an
image of the same size whose value at every pixel and each of the three channels is
that of the resized second image. -/
theorem overlay_alpha_zero_and_one (cv : OpenCV) (w : Window) (mat0 mat1 base over : Mat)
    (hopen : w.mWindowClose = false) (hW : 0 < w.mWidth) (hH : 0 < w.mHeight)
    (ht : mat0.type = mat1.type)
    (h0 : cv.resize mat0 w.mWidth w.mHeight = .ok base)
    (h1 : cv.resize mat1 w.mWidth w.mHeight = .ok over) :
    (∃ out, w.renderMatsAlpha cv [mat0, mat1] (IEEE.ofRatio 0 1) = [Effect.imshow w.mTitle out] ∧
      out = base ∧
      ∀ i j c, i < base.rows → j < base.cols → c < 3 → out.at3 i j c = base.at3 i j c) ∧
    (∃ out, w.renderMatsAlpha cv [mat0, mat1] (IEEE.ofRatio 1 1) = [Effect.imshow w.mTitle out] ∧
      out.rows = over.rows ∧ out.cols = over.cols ∧
      ∀ i j c, i < over.rows → j < over.cols → c < 3 → out.at3 i j c = over.at3 i j c) := by
  obtain ⟨b1, b2, b3, b4⟩ := cv.resize_spec mat0 w.mWidth w.mHeight base h0
  obtain ⟨o1, o2, o3, o4⟩ := cv.resize_spec mat1 w.mWidth w.mHeight over h1
  have hrows : base.rows = over.rows := by omega
  have hcols : base.cols = over.cols := by omega
  have htype : base.type = over.type := by rw [b3, o3, ht]
  have hlen : base.data.length = over.data.length := by rw [b4, o4, hrows, hcols, htype]
  have hbase : base.hasArea = true := by
    simp only [Mat.hasArea, Bool.and_eq_true, decide_eq_true_eq]
    omega
  constructor
  · refine ⟨base, ?_, rfl, fun _ _ _ _ _ _ => rfl⟩
    simp only [Window.renderMatsAlpha, Window.renderMatsAlphaBody, hopen, Bool.false_eq_true,
      if_false, h0, h1, bind, Except.bind, blendMats_zero, imshow, hbase, if_true]
  · obtain ⟨hs, hpix⟩ := blendMats_one over base hcols htype hlen
    obtain ⟨s1, s2, s3, s4, s5⟩ := hs
    refine ⟨_, ?_, by rw [s1, hrows], by rw [s2, hcols], ?_⟩
    · have harea : (Window.blendMats (IEEE.ofRatio 1 1)
          (IEEE.sub (IEEE.ofRatio 1 1) (IEEE.ofRatio 1 1)) over base).hasArea = true := by
        simp only [Mat.hasArea, Bool.and_eq_true, decide_eq_true_eq, s1, s2]
        omega
      simp only [Window.renderMatsAlpha, Window.renderMatsAlphaBody, hopen, Bool.false_eq_true,
        if_false, h0, h1, bind, Except.bind, imshow, harea, if_true]
    · intro i j c hi hj hc
      exact hpix i j c (by omega) (by omega) hc

/-- Witness of C2: a 1 by 3 image under a 2 by 2 image on the 3 by 1 canvas of `appModel`. -/
theorem overlay_alpha_zero_and_one_witness :
    Window.renderMatsAlpha cvModel appModel [image3 1 3 10, image3 2 2 200] (IEEE.ofRatio 0 1)
      = [Effect.imshow WINDOW_TITLE (image3 1 3 10)] ∧
    ∃ out, Window.renderMatsAlpha cvModel appModel [image3 1 3 10, image3 2 2 200]
        (IEEE.ofRatio 1 1) = [Effect.imshow WINDOW_TITLE out] ∧
      ∀ i j c, i < 1 → j < 3 → c < 3 → out.at3 i j c = (image3 1 3 200).at3 i j c := by
  have h := overlay_alpha_zero_and_one cvModel appModel (image3 1 3 10) (image3 2 2 200)
    (image3 1 3 10) (image3 1 3 200) rfl (by decide) (by decide) rfl (by rfl) (by rfl)
  obtain ⟨⟨out0, h0, e0, _⟩, ⟨out1, h1, _, _, hp⟩⟩ := h
  exact ⟨by rw [h0, e0]; rfl, out1, h1, hp⟩

/-! ### The alpha blend between 0 and 1 -/

theorem roundMag32_rel (num den : Nat) (hd : 0 < den) (hn : num < 2 ^ 8192)
    (hden : den < 2 ^ 8192) :
    2 ^ 24 * (IEEE.roundMag binary32 num den * den) ≤ 2 ^ 24 * num + num + 2 ^ 23 * den ∧
    2 ^ 24 * num ≤ 2 ^ 24 * (IEEE.roundMag binary32 num den * den) + num + 2 ^ 23 * den :=
  IEEE.roundMag_rel binary32 hd hn hden

/-- The magnitudes that the blend of one channel goes through, for `0 ≤ alpha < 1` with
magnitude `ma`: `mi` of `1.0f - alpha`, `p1` and `p2` of the two products, `s` of their
sum. The sum stays within one unit below the smaller and at most the larger value. -/
theorem blend_mag_bounds (ma b o mi p1 p2 s : Nat) (h1 : ma < 2 ^ 149) (hb : b < 256)
    (ho : o < 256)
    (hmi : mi = IEEE.roundMag binary32 (2 ^ 149 - ma) 1)
    (hp1 : p1 = IEEE.roundMag binary32 (b * 2 ^ 149 * mi) (2 ^ 149))
    (hp2 : p2 = IEEE.roundMag binary32 (o * 2 ^ 149 * ma) (2 ^ 149))
    (hs : s = IEEE.roundMag binary32 (p1 + p2) 1) :
    mi ≤ 2 ^ 150 ∧ p1 ≤ 2 ^ 160 ∧ p2 ≤ 2 ^ 160 ∧ s ≤ 2 ^ 162 ∧
      min b o * 2 ^ 149 ≤ s + 2 ^ 149 ∧ s < (max b o + 1) * 2 ^ 149 := by
  -- 1.0f - alpha
  have r0 := roundMag32_rel (2 ^ 149 - ma) 1 (by norm_num)
    (lt_of_le_of_lt (Nat.sub_le _ _) (by norm_num)) (by norm_num)
  rw [← hmi] at r0
  simp only [Nat.mul_one] at r0
  obtain ⟨r0a, r0b⟩ := r0
  have hmi_le : mi ≤ 2 ^ 150 := by omega
  -- the two products
  have hX : b * mi ≤ 256 * 2 ^ 150 := Nat.mul_le_mul (le_of_lt hb) hmi_le
  have hY : o * ma ≤ 256 * 2 ^ 149 := Nat.mul_le_mul (le_of_lt ho) (le_of_lt h1)
  have e1 : b * 2 ^ 149 * mi = b * mi * 2 ^ 149 := by ring
  have e2 : o * 2 ^ 149 * ma = o * ma * 2 ^ 149 := by ring
  have r1 := roundMag32_rel (b * 2 ^ 149 * mi) (2 ^ 149) (by positivity)
    (by rw [e1]; exact lt_of_le_of_lt (Nat.mul_le_mul_right _ hX) (by norm_num)) (by norm_num)
  have r2 := roundMag32_rel (o * 2 ^ 149 * ma) (2 ^ 149) (by positivity)
    (by rw [e2]; exact lt_of_le_of_lt (Nat.mul_le_mul_right _ hY) (by norm_num)) (by norm_num)
  rw [← hp1, e1] at r1
  rw [← hp2, e2] at r2
  obtain ⟨r1a, r1b⟩ := r1
  obtain ⟨r2a, r2b⟩ := r2
  have hp1_le : p1 ≤ 2 ^ 160 := by omega
  have hp2_le : p2 ≤ 2 ^ 160 := by omega
  -- the sum
  have r3 := roundMag32_rel (p1 + p2) 1 (by norm_num)
    (lt_of_le_of_lt (Nat.add_le_add hp1_le hp2_le) (by norm_num)) (by norm_num)
  rw [← hs] at r3
  simp only [Nat.mul_one] at r3
  obtain ⟨r3a, r3b⟩ := r3
  have hs_le : s ≤ 2 ^ 162 := by omega
  refine ⟨hmi_le, hp1_le, hp2_le, hs_le, ?_, ?_⟩
  · -- lower bound
    have hlow : (2 ^ 24 - 1) * 2 ^ 149 ≤ 2 ^ 24 * mi + 2 ^ 24 * ma + 2 ^ 23 := by omega
    rcases le_total b o with hbo | hob
    · rw [min_eq_left hbo]
      have hm := Nat.mul_le_mul_left b hlow
      have hd : b * (2 ^ 24 * mi + 2 ^ 24 * ma + 2 ^ 23)
          = 2 ^ 24 * (b * mi) + 2 ^ 24 * (b * ma) + b * 2 ^ 23 := by ring
      rw [hd] at hm
      have hle : b * ma ≤ o * ma := Nat.mul_le_mul_right ma hbo
      omega
    · rw [min_eq_right hob]
      have hm := Nat.mul_le_mul_left o hlow
      have hd : o * (2 ^ 24 * mi + 2 ^ 24 * ma + 2 ^ 23)
          = 2 ^ 24 * (o * mi) + 2 ^ 24 * (o * ma) + o * 2 ^ 23 := by ring
      rw [hd] at hm
      have hle : o * mi ≤ b * mi := Nat.mul_le_mul_right mi hob
      omega
  · -- upper bound
    have hup : 2 ^ 24 * mi + 2 ^ 24 * ma ≤ (2 ^ 24 + 1) * 2 ^ 149 + 2 ^ 23 := by omega
    rcases le_total b o with hbo | hob
    · rw [max_eq_right hbo]
      have hm := Nat.mul_le_mul_left o hup
      have hd : o * (2 ^ 24 * mi + 2 ^ 24 * ma)
          = 2 ^ 24 * (o * mi) + 2 ^ 24 * (o * ma) := by ring
      rw [hd] at hm
      have hle : b * mi ≤ o * mi := Nat.mul_le_mul_right mi hbo
      omega
    · rw [max_eq_left hob]
      have hm := Nat.mul_le_mul_left b hup
      have hd : b * (2 ^ 24 * mi + 2 ^ 24 * ma)
          = 2 ^ 24 * (b * mi) + 2 ^ 24 * (b * ma) := by ring
      rw [hd] at hm
      have hle : o * ma ≤ b * ma := Nat.mul_le_mul_right ma hob
      omega

theorem round32_finite (s : Bool) (num den : Nat)
    (h : IEEE.roundMag binary32 num den ≤ 2 ^ 162) :
    (IEEE.round s num den : F32) = IEEE.finite s (IEEE.roundMag binary32 num den) := by
  have hmax : 2 ^ 162 ≤ IEEE.maxMag binary32 := by decide
  unfold IEEE.round
  simp only []
  rw [if_neg (by omega)]

theorem ofInt_byte : ∀ b : Fin 256,
    (IEEE.ofInt (b.val : Int) : F32) = IEEE.finite false (b.val * 2 ^ 149) := by
  decide

theorem toUInt8_of_small (s : Nat) (h : s < 256 * 2 ^ 149) :
    IEEE.toUInt8 (IEEE.finite false s : F32) = s / 2 ^ 149 := by
  have hq : s / 2 ^ 149 < 256 := Nat.div_lt_of_lt_mul (by omega)
  simp only [IEEE.toUInt8, IEEE.toInt32, binary32, Bool.false_eq_true, if_false]
  rw [if_pos (by constructor <;> omega)]
  omega

/-- The value of one blended channel for `0 ≤ alpha < 1`, by the magnitudes of
`blend_mag_bounds`. -/
theorem blendChannel_val (ma : Nat) (b o : Fin 256) (h1 : ma < 2 ^ 149) :
    (Window.blendChannel (IEEE.finite false ma)
        (IEEE.sub (IEEE.ofRatio 1 1) (IEEE.finite false ma)) b o).val + 1 ≥ min b.val o.val ∧
    (Window.blendChannel (IEEE.finite false ma)
        (IEEE.sub (IEEE.ofRatio 1 1) (IEEE.finite false ma)) b o).val ≤ max b.val o.val := by
  obtain ⟨hmi, hp1, hp2, hs, hlo, hhi⟩ := blend_mag_bounds ma b.val o.val _ _ _ _ h1 b.isLt o.isLt
    rfl rfl rfl rfl
  have hsub : IEEE.sub (IEEE.ofRatio 1 1) (IEEE.finite false ma : F32)
      = IEEE.finite false (IEEE.roundMag binary32 (2 ^ 149 - ma) 1) := by
    rw [ofRatio_one]
    simp only [IEEE.sub, IEEE.neg, IEEE.add, Bool.not_false, Bool.false_eq_true, if_false, h1,
      if_true]
    exact round32_finite _ _ _ (by omega)
  have hmul1 : IEEE.mul (IEEE.ofInt (b.val : Int) : F32)
      (IEEE.finite false (IEEE.roundMag binary32 (2 ^ 149 - ma) 1))
      = IEEE.finite false (IEEE.roundMag binary32
          (b.val * 2 ^ 149 * IEEE.roundMag binary32 (2 ^ 149 - ma) 1) (2 ^ 149)) := by
    rw [ofInt_byte]
    simp only [IEEE.mul, bne_self_eq_false, show binary32.unit = 149 from rfl]
    exact round32_finite _ _ _ (by omega)
  have hmul2 : IEEE.mul (IEEE.ofInt (o.val : Int) : F32) (IEEE.finite false ma)
      = IEEE.finite false (IEEE.roundMag binary32 (o.val * 2 ^ 149 * ma) (2 ^ 149)) := by
    rw [ofInt_byte]
    simp only [IEEE.mul, bne_self_eq_false, show binary32.unit = 149 from rfl]
    exact round32_finite _ _ _ (by omega)
  have hmax : max b.val o.val ≤ 255 := by
    have := b.isLt
    have := o.isLt
    exact max_le (by omega) (by omega)
  unfold Window.blendChannel
  rw [hsub, hmul1, hmul2]
  simp only [IEEE.add, if_true]
  rw [round32_finite _ _ _ hs, toUInt8_of_small _ (by omega)]
  have hq : IEEE.roundMag binary32
      (IEEE.roundMag binary32 (b.val * 2 ^ 149 * IEEE.roundMag binary32 (2 ^ 149 - ma) 1) (2 ^ 149)
        + IEEE.roundMag binary32 (o.val * 2 ^ 149 * ma) (2 ^ 149)) 1 / 2 ^ 149
      < max b.val o.val + 1 := Nat.div_lt_of_lt_mul (by omega)
  generalize IEEE.roundMag binary32
      (IEEE.roundMag binary32 (b.val * 2 ^ 149 * IEEE.roundMag binary32 (2 ^ 149 - ma) 1) (2 ^ 149)
        + IEEE.roundMag binary32 (o.val * 2 ^ 149 * ma) (2 ^ 149)) 1 = s at *
  have hval : (Fin.ofNat (s / 2 ^ 149) : Fin 256).val = s / 2 ^ 149 := by
    show (s / 2 ^ 149) % 256 = s / 2 ^ 149
    exact Nat.mod_eq_of_lt (by omega)
  rw [hval]
  constructor
  · have : min b.val o.val * 2 ^ 149 ≤ (s / 2 ^ 149 + 1) * 2 ^ 149 := by
      have := Nat.div_add_mod s (2 ^ 149)
      have := Nat.mod_lt s (by positivity : 0 < 2 ^ 149)
      omega
    have := Nat.le_of_mul_le_mul_right this (by positivity)
    omega
  · omega

/-- C6 (counterexample): with `alpha = 1.75 * 2^-24` the blend of 200 and 201 is 199,
below both, and with `alpha = 0.5` the blend of 0 and 1 is 0; so the output is not
strictly between the two values for every `alpha` in (0, 1). -/
theorem blend_not_strictly_between :
    IEEE.lt (IEEE.ofRatio 0 1) (IEEE.ofBits 0x33e00000) = true ∧
    IEEE.lt (IEEE.ofBits 0x33e00000) (IEEE.ofRatio 1 1) = true ∧
    Window.blendChannel (IEEE.ofBits 0x33e00000)
      (IEEE.sub (IEEE.ofRatio 1 1) (IEEE.ofBits 0x33e00000)) 200 201 = 199 ∧
    Window.blendChannel (IEEE.ofRatio 1 2) (IEEE.sub (IEEE.ofRatio 1 1) (IEEE.ofRatio 1 2)) 0 1 = 0 ∧
    ¬ (∀ (alpha : F32) (b o : Fin 256), IEEE.lt (IEEE.ofRatio 0 1) alpha = true →
        IEEE.lt alpha (IEEE.ofRatio 1 1) = true → b ≠ o →
        min b o < Window.blendChannel alpha (IEEE.sub (IEEE.ofRatio 1 1) alpha) b o ∧
        Window.blendChannel alpha (IEEE.sub (IEEE.ofRatio 1 1) alpha) b o < max b o) := by
  have h199 : Window.blendChannel (IEEE.ofBits 0x33e00000)
      (IEEE.sub (IEEE.ofRatio 1 1) (IEEE.ofBits 0x33e00000)) 200 201 = 199 := by decide
  refine ⟨by decide, by decide, h199, by decide, ?_⟩
  intro hall
  have h := (hall (IEEE.ofBits 0x33e00000) 200 201 (by decide) (by decide) (by decide)).1
  rw [h199] at h
  exact absurd h (by decide)

/-- C6 (amended): for every `alpha` with `0 < alpha < 1` and every two channel values
`b` and `o`, the blended value `b * (1 - alpha) + o * alpha`, computed in `float` and
truncated, is at least `min b o - 1` and at most `max b o`. -/
theorem blend_within_one_below (alpha : F32) (b o : Fin 256)
    (h0 : IEEE.lt (IEEE.ofRatio 0 1) alpha = true)
    (h1 : IEEE.lt alpha (IEEE.ofRatio 1 1) = true) :
    min b.val o.val ≤ (Window.blendChannel alpha (IEEE.sub (IEEE.ofRatio 1 1) alpha) b o).val + 1 ∧
    (Window.blendChannel alpha (IEEE.sub (IEEE.ofRatio 1 1) alpha) b o).val ≤ max b.val o.val := by
  rw [ofRatio_zero] at h0
  rw [ofRatio_one] at h1
  cases alpha with
  | nan => simp [IEEE.lt] at h0
  | inf s =>
    cases s
    · simp [IEEE.lt] at h1
    · simp [IEEE.lt] at h0
  | finite s ma =>
    cases s
    · simp only [IEEE.lt, decide_eq_true_eq] at h1
      exact blendChannel_val ma b o h1
    · simp [IEEE.lt] at h0

/-- Witness of C6: the blend of 10 and 20 with `alpha = 0.5`. -/
theorem blend_within_one_below_witness :
    min 10 20 ≤ (Window.blendChannel (IEEE.ofRatio 1 2)
        (IEEE.sub (IEEE.ofRatio 1 1) (IEEE.ofRatio 1 2)) 10 20).val + 1 ∧
    (Window.blendChannel (IEEE.ofRatio 1 2)
        (IEEE.sub (IEEE.ofRatio 1 1) (IEEE.ofRatio 1 2)) 10 20).val ≤ max 10 20 :=
  blend_within_one_below (IEEE.ofRatio 1 2) 10 20 (by decide) (by decide)

/-! ### The frame hand-off -/

theorem take_of_slot (cv : OpenCV) (app : Window) (g : Shared) (fs : FrameSet)
    (hfree : g.gMutexFrames = false) (hslot : g.gSpFrameSet = some fs) (mats : List Mat)
    (hm : matsOf cv app fs = .ok mats) :
    GetSynchronizedFrames cv app g = some (.ok mats, { g with gSpFrameSet := none }) := by
  simp only [GetSynchronizedFrames, hfree, hslot]
  simp only [Bool.false_eq_true, if_false]
  rw [hm]

theorem renderMats_nil (cv : OpenCV) (w : Window) (t : RenderType) :
    w.renderMats cv [] t = [] := by
  simp [Window.renderMats, Window.renderMatsBody, pure, Except.pure]

theorem processFrames_nil (cv : OpenCV) (w : Window) : w.processFrames cv [] = .ok [] := by
  unfold Window.processFrames
  split <;> rfl

theorem tick_of_empty_slot (cv : OpenCV) (ext : Collaborators) (key : Int) (s : MainState)
    (h : s.shared.gSpFrameSet = none) :
    ProcessAndDisplayFrameSet cv ext key s
      = some (.ok ({ s with app := (s.app.ScanKeyPress key).1 }, (s.app.ScanKeyPress key).2.1)) := by
  simp only [ProcessAndDisplayFrameSet, h, Window.render]
  by_cases hc : (s.app.ScanKeyPress key).2.2 = true
  · simp [hc]
    rfl
  · simp only [hc, processFrames_nil]
    simp
    exact renderMats_nil cv _ _

/-- C3: a publish of a non-null frame set while the mutex is free puts it in the slot;
the take that follows returns the images of exactly that frame set and empties the
slot; after it `GetSynchronizedFrames` has nothing to read, and a tick of the consumer
leaves the slot empty, does not count a frame and shows, detects and tracks nothing. -/
theorem publish_then_take (cv : OpenCV) (ext : Collaborators) (app : Window) (g : Shared)
    (fs : FrameSet) (mats : List Mat) (hfree : g.gMutexFrames = false)
    (hm : matsOf cv app fs = .ok mats) :
    (waitFramesStep (some fs) g).gSpFrameSet = some fs ∧
    GetSynchronizedFrames cv app (waitFramesStep (some fs) g)
      = some (.ok mats, { g with gSpFrameSet := none }) ∧
    GetSynchronizedFrames cv app { g with gSpFrameSet := none } = none ∧
    ∀ (key : Int) (n : Nat), ∃ app1 effects,
      ProcessAndDisplayFrameSet cv ext key ⟨app, { g with gSpFrameSet := none }, n⟩
        = some (.ok (⟨app1, { g with gSpFrameSet := none }, n⟩, effects)) ∧
      ∀ e ∈ effects, e = Effect.destroyAllWindows := by
  have hpub : waitFramesStep (some fs) g = { g with gSpFrameSet := some fs } := by
    simp [waitFramesStep, hfree]
  refine ⟨by rw [hpub], ?_, ?_, ?_⟩
  · rw [hpub]
    exact take_of_slot cv app { g with gSpFrameSet := some fs } fs hfree rfl mats hm
  · simp [GetSynchronizedFrames, hfree]
  · intro key n
    refine ⟨(app.ScanKeyPress key).1, (app.ScanKeyPress key).2.1, ?_, ?_⟩
    · exact tick_of_empty_slot cv ext key ⟨app, { g with gSpFrameSet := none }, n⟩ rfl
    · intro e he
      simp only [Window.ScanKeyPress] at he
      split at he
      · simpa using he
      · simp only [List.mem_ite_nil_right, List.mem_singleton] at he
        exact he.2

/-- Witness of C3: `frameSetA` published into the empty slot and taken. -/
theorem publish_then_take_witness :
    (waitFramesStep (some frameSetA) {}).gSpFrameSet = some frameSetA ∧
    GetSynchronizedFrames cvModel appModel (waitFramesStep (some frameSetA) {})
      = some (.ok [⟨2, 1, 1, MatType.CV_8UC3, [3, 2, 1]⟩, ⟨2, 1, 2, MatType.CV_8UC1, [255, 255]⟩],
          {}) := by
  have h := publish_then_take cvModel extModel appModel {} frameSetA
    [⟨2, 1, 1, MatType.CV_8UC3, [3, 2, 1]⟩, ⟨2, 1, 2, MatType.CV_8UC1, [255, 255]⟩] rfl
    (by rfl)
  exact ⟨h.1, h.2.1⟩

theorem waitFramesStep_free (fs : FrameSet) (g : Shared) (hfree : g.gMutexFrames = false) :
    waitFramesStep (some fs) g = { g with gSpFrameSet := some fs } := by
  simp [waitFramesStep, hfree]

theorem publishAll_append_last (l : List FrameSet) (fs : FrameSet) (g : Shared)
    (hfree : g.gMutexFrames = false) :
    publishAll (l ++ [fs]) g = { g with gSpFrameSet := some fs } := by
  have hlock : ∀ (l : List FrameSet) (g : Shared), g.gMutexFrames = false →
      (publishAll l g).gMutexFrames = false := by
    intro l
    induction l with
    | nil => intro g h; exact h
    | cons a l ih =>
      intro g h
      simp only [publishAll, List.foldl_cons]
      rw [waitFramesStep_free a g h]
      exact ih _ h
  have hother : ∀ (l : List FrameSet) (g : Shared), g.gMutexFrames = false →
      { publishAll l g with gSpFrameSet := some fs } = { g with gSpFrameSet := some fs } := by
    intro l
    induction l with
    | nil => intro g _; rfl
    | cons a l ih =>
      intro g h
      simp only [publishAll, List.foldl_cons]
      rw [waitFramesStep_free a g h]
      exact ih _ h
  have hsplit : publishAll (l ++ [fs]) g = waitFramesStep (some fs) (publishAll l g) := by
    simp only [publishAll, List.foldl_append, List.foldl_cons, List.foldl_nil]
  rw [hsplit, waitFramesStep_free fs _ (hlock l g hfree)]
  exact hother l g hfree

/-- C5: after any non-empty sequence of publishes of non-null frame sets with the
mutex free and no take in between, the shared state is the one that the publish of the
last frame set alone gives: the slot holds the last frame set, and the next take
returns the images of the last one and empties the slot. -/
theorem last_publish_wins (cv : OpenCV) (app : Window) (g : Shared) (frameSets : List FrameSet)
    (hne : frameSets ≠ []) (hfree : g.gMutexFrames = false) :
    publishAll frameSets g = waitFramesStep (some (frameSets.getLast hne)) g ∧
    (publishAll frameSets g).gSpFrameSet = some (frameSets.getLast hne) ∧
    (∀ mats, matsOf cv app (frameSets.getLast hne) = .ok mats →
      GetSynchronizedFrames cv app (publishAll frameSets g)
        = some (.ok mats, { g with gSpFrameSet := none })) := by
  obtain ⟨l, fs, rfl⟩ : ∃ l fs, frameSets = l ++ [fs] :=
    ⟨frameSets.dropLast, frameSets.getLast hne, (List.dropLast_append_getLast hne).symm⟩
  have hlast : (l ++ [fs]).getLast hne = fs := by simp
  rw [hlast, publishAll_append_last l fs g hfree, waitFramesStep_free fs g hfree]
  refine ⟨rfl, rfl, ?_⟩
  intro mats hm
  exact take_of_slot cv app { g with gSpFrameSet := some fs } fs hfree rfl mats hm

/-- Witness of C5: `frameSetB` and then `frameSetA` published, then one take. -/
theorem last_publish_wins_witness :
    publishAll [frameSetB, frameSetA] {} = waitFramesStep (some frameSetA) {} ∧
    (publishAll [frameSetB, frameSetA] {}).gSpFrameSet = some frameSetA ∧
    GetSynchronizedFrames cvModel appModel (publishAll [frameSetB, frameSetA] {})
      = some (.ok [⟨2, 1, 1, MatType.CV_8UC3, [3, 2, 1]⟩, ⟨2, 1, 2, MatType.CV_8UC1, [255, 255]⟩],
          {}) := by
  have h := last_publish_wins cvModel appModel {} [frameSetB, frameSetA] (by decide) rfl
  exact ⟨h.1, h.2.1, h.2.2 _ (by rfl)⟩

/-! ### The scale of depth and infrared frames -/

theorem ofRatio_one_double : IEEE.toDouble (IEEE.ofRatio 1 1) = IEEE.finite false (2 ^ 1074) := by
  decide

theorem depth_scale_value : ∀ b : Nat, b < 256 →
    IEEE.div (IEEE.toDouble (IEEE.ofRatio 1 1)) (pow 2 ((b : Int) - 10))
      = (IEEE.finite false (2 ^ (1084 - b)) : F64) := by
  decide

theorem ir_scale_value : ∀ b : Nat, b < 256 →
    IEEE.div (IEEE.toDouble (IEEE.ofRatio 1 1)) (pow 2 ((b : Int) - 8))
      = (IEEE.finite false (2 ^ (1082 - b)) : F64) := by
  decide

theorem toRat_pow_two (base b : Nat) (hb : b ≤ 1074 + base) :
    (IEEE.finite false (2 ^ (1074 + base - b)) : F64).toRat = 1 / 2 ^ ((b : ℤ) - (base : ℤ)) := by
  have h2 : (2 : ℚ) ≠ 0 := by norm_num
  simp only [IEEE.toRat, binary64]
  rw [one_div, ← zpow_neg]
  have e : ((2 ^ (1074 + base - b) : Nat) : ℚ) = (2 : ℚ) ^ (((1074 + base - b : Nat) : ℤ)) := by
    push_cast
    rw [zpow_natCast]
  rw [e]
  have e2 : ((2 : ℚ) ^ (1074 : Nat)) = (2 : ℚ) ^ ((1074 : Nat) : ℤ) := by rw [zpow_natCast]
  rw [e2]
  simp only [Bool.false_eq_true, if_false, one_mul]
  rw [← zpow_sub₀ h2]
  congr 1
  omega

/-- C4: in `processFrames` a depth frame with declared bit depth `b` is scaled by
`1 / 2^(b - 10)` and an infrared frame (any frame that is neither color nor depth) by
`1 / 2^(b - 8)`; so bit depth 10 on a depth frame gives 1, bit depth 12 gives 1/4, and
bit depth 8 on an infrared frame gives 1. -/
theorem scale_factor_of_bit_depth (cv : OpenCV) (f : Frame)
    (hcolor : f.type ≠ OBFrameType.OB_FRAME_COLOR)
    (hfmt : f.format = OBFormat.OB_FORMAT_Y16 ∨ f.format = OBFormat.OB_FORMAT_YUYV
      ∨ f.format = OBFormat.OB_FORMAT_YUY2)
    (hb : f.pixelAvailableBitSize < 256) :
    ∃ scale : F64,
      Window.decodeFrame cv f
        = cv.convertScaleAbs ⟨2, f.height, f.width, MatType.CV_16UC1, f.data⟩ scale
      ∧ scale.toRat = 1 / 2 ^ ((f.pixelAvailableBitSize : ℤ)
          - (if f.type = OBFrameType.OB_FRAME_DEPTH then 10 else 8))
      ∧ (f.type = OBFrameType.OB_FRAME_DEPTH → f.pixelAvailableBitSize = 10 → scale.toRat = 1)
      ∧ (f.type = OBFrameType.OB_FRAME_DEPTH → f.pixelAvailableBitSize = 12 → scale.toRat = 1 / 4)
      ∧ (f.type = OBFrameType.OB_FRAME_IR → f.pixelAvailableBitSize = 8 → scale.toRat = 1) := by
  by_cases ht : f.type = OBFrameType.OB_FRAME_DEPTH
  · refine ⟨IEEE.finite false (2 ^ (1084 - f.pixelAvailableBitSize)), ?_, ?_, ?_, ?_, ?_⟩
    · have hv := depth_scale_value f.pixelAvailableBitSize hb
      simp only [Window.decodeFrame, ht, hfmt, if_true]
      rw [if_neg (by decide), hv]
    · rw [if_pos ht]; exact toRat_pow_two 10 _ (by omega)
    · intro _ h10
      rw [toRat_pow_two 10 _ (by omega), h10]; norm_num
    · intro _ h12
      rw [toRat_pow_two 10 _ (by omega), h12]; norm_num
    · intro hir; rw [ht] at hir; cases hir
  · refine ⟨IEEE.finite false (2 ^ (1082 - f.pixelAvailableBitSize)), ?_, ?_, ?_, ?_, ?_⟩
    · have hv := ir_scale_value f.pixelAvailableBitSize hb
      simp only [Window.decodeFrame, hfmt, if_true]
      rw [if_neg hcolor, if_neg ht, hv]
    · rw [if_neg ht]; exact toRat_pow_two 8 _ (by omega)
    · intro h; exact absurd h ht
    · intro h; exact absurd h ht
    · intro _ h8
      rw [toRat_pow_two 8 _ (by omega), h8]; norm_num

/-- Witness of C4: the depth frame with 12 valid bits is scaled by 1/4. -/
theorem scale_factor_of_bit_depth_witness :
    ∃ scale : F64,
      Window.decodeFrame cvModel depthFrame12
        = cvModel.convertScaleAbs ⟨2, 1, 2, MatType.CV_16UC1, [255, 3, 3, 4]⟩ scale
      ∧ scale.toRat = 1 / 4 := by
  obtain ⟨scale, h, _, _, h12, _⟩ :=
    scale_factor_of_bit_depth cvModel depthFrame12 (by decide) (Or.inl rfl) (by decide)
  exact ⟨scale, h, h12 rfl rfl⟩

/-! ### The overlay and the number of images -/

theorem imshow_noArea (title : String) (m : Mat) (h : m.hasArea = false) :
    ∃ e, imshow title m = .error e := by
  simp [imshow, h]

theorem overlayLoop_noArea (cv : OpenCV) : ∀ (l : List Mat) (outMat r : Mat),
    outMat.hasArea = false → Window.overlayLoop cv l outMat = .ok r → r.hasArea = false
  | [], outMat, r, h, hr => by
    simp only [Window.overlayLoop, pure, Except.pure] at hr
    injection hr with hr
    rw [← hr]; exact h
  | mat :: rest, outMat, r, h, hr => by
    simp only [Window.overlayLoop, bind, Except.bind] at hr
    split at hr
    · cases hr
    · rename_i joined hj
      exact overlayLoop_noArea cv rest joined r (cv.bitwise_or_noArea outMat mat joined h hj) hr

theorem renderMats_overlay (cv : OpenCV) (w : Window) (mats : List Mat) :
    w.renderMats cv mats RenderType.RENDER_OVERLAY = [] ∨
      ∃ text, w.renderMats cv mats RenderType.RENDER_OVERLAY = [Effect.cerr text] := by
  unfold Window.renderMats Window.renderMatsBody
  by_cases hc : w.mWindowClose = true ∨ mats.isEmpty = true
  · left
    simp only [hc, if_true]
    rfl
  · right
    simp only [hc, if_false]
    cases hl : Window.overlayLoop cv (List.drop 1 mats) Mat.default with
    | error e => exact ⟨e.what, by simp [bind, Except.bind]⟩
    | ok r =>
      have hr := overlayLoop_noArea cv _ _ r (by decide) hl
      obtain ⟨e, he⟩ := imshow_noArea w.mTitle r hr
      exact ⟨e.what, by simp [bind, Except.bind, he]⟩

theorem renderMatsAlpha_count (cv : OpenCV) (w : Window) (mats : List Mat) (alpha : F32)
    (h : mats.length ≠ 2) :
    w.renderMatsAlpha cv mats alpha = [] ∨ w.renderMatsAlpha cv mats alpha
      = [Effect.cout "Window::renderMats: Only support the saturation with two mats!"] := by
  unfold Window.renderMatsAlpha Window.renderMatsAlphaBody
  by_cases hc : w.mWindowClose = true
  · left
    simp only [hc, if_true]
    rfl
  · right
    simp only [hc]
    match mats, h with
    | [], _ => rfl
    | [_], _ => rfl
    | [_, _], h => exact absurd rfl h
    | _ :: _ :: _ :: _, _ => rfl

/-- C8: for every list of images whose length is not 2, both overlay entry points
return without a call of `cv::imshow`: `renderMats(mats, alpha)` does nothing (closed
window) or writes its message to `std::cout`, and `renderMats(mats, RENDER_OVERLAY)`
does nothing (closed window, no image) or writes the caught exception to `std::cerr`. -/
theorem overlay_wrong_count_skips_render (cv : OpenCV) (w : Window) (mats : List Mat)
    (alpha : F32) (h : mats.length ≠ 2) :
    (∀ e ∈ w.renderMatsAlpha cv mats alpha, e.isImshow = false) ∧
    (∀ e ∈ w.renderMats cv mats RenderType.RENDER_OVERLAY, e.isImshow = false) ∧
    (w.renderMatsAlpha cv mats alpha = [] ∨ w.renderMatsAlpha cv mats alpha
      = [Effect.cout "Window::renderMats: Only support the saturation with two mats!"]) ∧
    (w.renderMats cv mats RenderType.RENDER_OVERLAY = [] ∨
      ∃ text, w.renderMats cv mats RenderType.RENDER_OVERLAY = [Effect.cerr text]) := by
  have ha := renderMatsAlpha_count cv w mats alpha h
  have ho := renderMats_overlay cv w mats
  refine ⟨?_, ?_, ha, ho⟩
  · intro e he
    rcases ha with ha | ha <;> rw [ha] at he
    · cases he
    · simp only [List.mem_singleton] at he
      rw [he]; rfl
  · intro e he
    rcases ho with ho | ⟨text, ho⟩ <;> rw [ho] at he
    · cases he
    · simp only [List.mem_singleton] at he
      rw [he]; rfl

/-- Witness of C8: three images on both overlay entry points. -/
theorem overlay_wrong_count_skips_render_witness :
    Window.renderMatsAlpha cvModel appModel [image3 1 1 7, image3 1 1 8, image3 1 1 9]
        (IEEE.ofRatio 1 2)
      = [Effect.cout "Window::renderMats: Only support the saturation with two mats!"] ∧
    ∃ text, Window.renderMats cvModel appModel [image3 1 1 7, image3 1 1 8, image3 1 1 9]
        RenderType.RENDER_OVERLAY = [Effect.cerr text] := by
  have h := overlay_wrong_count_skips_render cvModel appModel
    [image3 1 1 7, image3 1 1 8, image3 1 1 9] (IEEE.ofRatio 1 2) (by decide)
  refine ⟨?_, ?_⟩
  · rcases h.2.2.1 with h1 | h1
    · exact absurd h1 (by decide)
    · exact h1
  · rcases h.2.2.2 with h2 | h2
    · exact absurd h2 (by decide)
    · exact h2

/-! ### Frames that are not decoded -/

theorem processLoop_acc (cv : OpenCV) (w : Window) : ∀ (l : List (Option Frame)) (acc : List Mat),
    Window.processLoop cv w l acc = (Window.processLoop cv w l []).map (fun r => acc ++ r)
  | [], acc => by simp [Window.processLoop, pure, Except.pure, Except.map]
  | none :: rest, acc => by
    simp only [Window.processLoop]
    exact processLoop_acc cv w rest acc
  | some f :: rest, acc => by
    simp only [Window.processLoop]
    split
    · exact processLoop_acc cv w rest acc
    · cases he : Window.frameEntry cv w f with
      | error e => simp [bind, Except.bind, Except.map]
      | ok m =>
        simp only [bind, Except.bind, List.nil_append]
        rw [processLoop_acc cv w rest (acc ++ [m]), processLoop_acc cv w rest [m]]
        cases Window.processLoop cv w rest [] <;> simp [Except.map]

theorem processLoop_append (cv : OpenCV) (w : Window) :
    ∀ (l1 l2 : List (Option Frame)) (acc : List Mat),
    Window.processLoop cv w (l1 ++ l2) acc
      = (Window.processLoop cv w l1 acc).bind (Window.processLoop cv w l2)
  | [], l2, acc => by simp [Window.processLoop, pure, Except.pure, Except.bind]
  | none :: rest, l2, acc => by
    simp only [List.cons_append, Window.processLoop]
    exact processLoop_append cv w rest l2 acc
  | some f :: rest, l2, acc => by
    simp only [List.cons_append, Window.processLoop]
    split
    · exact processLoop_append cv w rest l2 acc
    · cases he : Window.frameEntry cv w f with
      | error e => simp [bind, Except.bind]
      | ok m =>
        simp only [bind, Except.bind]
        exact processLoop_append cv w rest l2 (acc ++ [m])

theorem decodeFrame_unsupported (cv : OpenCV) (f : Frame) (h : f.supported = false) :
    Window.decodeFrame cv f = .ok Mat.default := by
  unfold Frame.supported at h
  unfold Window.decodeFrame
  by_cases hc : f.type = OBFrameType.OB_FRAME_COLOR
  · simp only [hc, if_true] at h ⊢
    simp only [List.mem_cons, List.mem_singleton, decide_eq_false_iff_not, not_or,
      List.not_mem_nil, or_false] at h
    obtain ⟨h1, h2, h3, h4, h5⟩ := h
    simp [h1, h2, h3, h4, h5, pure, Except.pure]
  · simp only [hc, if_false] at h ⊢
    simp only [List.mem_cons, List.mem_singleton, decide_eq_false_iff_not, not_or,
      List.not_mem_nil, or_false] at h
    obtain ⟨h1, h2, h3⟩ := h
    simp [h1, h2, h3, pure, Except.pure]

/-- C9 (counterexample): a color frame of 2048 bytes tagged Y16 is not in the dispatch
table, and `processFrames` returns one entry for it, the empty image. -/
theorem unsupported_frame_has_entry :
    colorFrameY16.supported = false ∧ 1024 ≤ colorFrameY16.dataSize ∧
    Window.processFrames cvModel appModel [some colorFrameY16] = .ok [Mat.default] ∧
    ¬ (∀ mats, Window.processFrames cvModel appModel [some colorFrameY16] = .ok mats →
        mats.length = 0) := by
  have h : Window.processFrames cvModel appModel [some colorFrameY16] = .ok [Mat.default] := by
    rfl
  refine ⟨by decide, by decide, h, ?_⟩
  intro hall
  exact absurd (hall _ h) (by decide)

/-- C9 (amended): for a frame of at least 1024 bytes whose stream kind and format are
not in the dispatch table, `processFrames` decodes nothing and still adds one entry at
the place of the frame, between the images of the frames before and after it: the
empty `cv::Mat()`, passed through `drawInfo` when the info overlay is on. -/
theorem unsupported_frame_adds_empty_image (cv : OpenCV) (w : Window) (f : Frame)
    (before after : List (Option Frame)) (a b : List Mat) (entry : Mat)
    (hopen : w.mWindowClose = false) (hsize : 1024 ≤ f.dataSize) (hun : f.supported = false)
    (ha : w.processFrames cv before = .ok a) (hb : w.processFrames cv after = .ok b)
    (he : (if w.mShowInfo then
        Window.drawInfo cv Mat.default f
          (if f.type = OBFrameType.OB_FRAME_DEPTH then w.mAverageDepthFps
            else if f.type = OBFrameType.OB_FRAME_IR then w.mAverageIrFps
            else w.mAverageColorFps)
        else pure Mat.default) = .ok entry) :
    Window.decodeFrame cv f = .ok Mat.default ∧
    w.processFrames cv (before ++ some f :: after) = .ok (a ++ entry :: b) ∧
    (w.mShowInfo = false → entry = Mat.default) := by
  have hd := decodeFrame_unsupported cv f hun
  refine ⟨hd, ?_, ?_⟩
  · simp only [Window.processFrames, hopen, Bool.false_eq_true, if_false] at ha hb ⊢
    rw [processLoop_append, ha]
    simp only [Except.bind, Window.processLoop]
    rw [if_neg (by omega)]
    have hentry : Window.frameEntry cv w f = .ok entry := by
      simp only [Window.frameEntry, hd, bind, Except.bind]
      exact he
    simp only [hentry, bind, Except.bind]
    rw [processLoop_acc, hb]
    simp [Except.map]
  · intro hi
    rw [hi] at he
    simp only [Bool.false_eq_true, if_false, pure, Except.pure] at he
    injection he with he
    exact he.symm

/-- Witness of C9: the frame that is not decoded between two frames that are. -/
theorem unsupported_frame_adds_empty_image_witness :
    Window.processFrames cvModel appModel [some colorFrame888, some colorFrameY16, some depthFrame12]
      = .ok [⟨2, 1, 1, MatType.CV_8UC3, [3, 2, 1]⟩, Mat.default,
          ⟨2, 1, 2, MatType.CV_8UC1, [255, 255]⟩] :=
  (unsupported_frame_adds_empty_image cvModel appModel colorFrameY16 [some colorFrame888]
    [some depthFrame12] [⟨2, 1, 1, MatType.CV_8UC3, [3, 2, 1]⟩]
    [⟨2, 1, 2, MatType.CV_8UC1, [255, 255]⟩] Mat.default rfl (by decide) (by decide)
    (by rfl) (by rfl) (by rfl)).2.1

theorem processLoop_filter (cv : OpenCV) (w : Window) :
    ∀ (l : List (Option Frame)) (acc : List Mat),
    Window.processLoop cv w l acc = Window.processLoop cv w (l.filter passesGuard) acc
  | [], acc => rfl
  | none :: rest, acc => by
    have hg : passesGuard none = false := rfl
    simp only [List.filter_cons, hg, Bool.false_eq_true, if_false, Window.processLoop]
    exact processLoop_filter cv w rest acc
  | some f :: rest, acc => by
    by_cases hs : f.dataSize < 1024
    · have hg : passesGuard (some f) = false := by simp [passesGuard, hs]
      simp only [List.filter_cons, hg, Bool.false_eq_true, if_false, Window.processLoop, hs,
        if_true]
      exact processLoop_filter cv w rest acc
    · have hg : passesGuard (some f) = true := by simp [passesGuard]; omega
      simp only [List.filter_cons, hg, if_true, Window.processLoop, hs, if_false]
      cases Window.frameEntry cv w f with
      | error e => rfl
      | ok m =>
        simp only [bind, Except.bind]
        exact processLoop_filter cv w rest (acc ++ [m])

theorem processLoop_length (cv : OpenCV) (w : Window) :
    ∀ (l : List (Option Frame)) (acc mats : List Mat),
    Window.processLoop cv w l acc = .ok mats →
      mats.length = acc.length + (l.filter passesGuard).length
  | [], acc, mats, h => by
    simp only [Window.processLoop, pure, Except.pure] at h
    injection h with h
    simp [← h]
  | none :: rest, acc, mats, h => by
    have hg : passesGuard none = false := rfl
    simp only [Window.processLoop] at h
    simp only [List.filter_cons, hg, Bool.false_eq_true, if_false]
    exact processLoop_length cv w rest acc mats h
  | some f :: rest, acc, mats, h => by
    by_cases hs : f.dataSize < 1024
    · have hg : passesGuard (some f) = false := by simp [passesGuard, hs]
      simp only [Window.processLoop, hs, if_true] at h
      simp only [List.filter_cons, hg, Bool.false_eq_true, if_false]
      exact processLoop_length cv w rest acc mats h
    · have hg : passesGuard (some f) = true := by simp [passesGuard]; omega
      simp only [Window.processLoop, hs, if_false] at h
      simp only [List.filter_cons, hg, if_true, List.length_cons]
      cases he : Window.frameEntry cv w f with
      | error e => simp [he, bind, Except.bind] at h
      | ok m =>
        simp only [he, bind, Except.bind] at h
        have := processLoop_length cv w rest (acc ++ [m]) mats h
        simp only [List.length_append, List.length_cons, List.length_nil] at this
        omega

/-- C10: `processFrames` gives the same result, images and exceptions alike, as on the
list without the frames that are null or shorter than 1024 bytes; taking one such frame
out of the list changes nothing, so it adds no entry and no fault and the other frames
are processed in their order; and the number of images returned is at most the number
of frames that pass the guard. -/
theorem short_or_null_frames_are_skipped (cv : OpenCV) (w : Window)
    (frames : List (Option Frame)) :
    w.processFrames cv frames = w.processFrames cv (frames.filter passesGuard) ∧
    (∀ (before after : List (Option Frame)) (frame : Option Frame), passesGuard frame = false →
      w.processFrames cv (before ++ frame :: after) = w.processFrames cv (before ++ after)) ∧
    (∀ mats, w.processFrames cv frames = .ok mats →
      mats.length ≤ (frames.filter passesGuard).length) := by
  refine ⟨?_, ?_, ?_⟩
  · unfold Window.processFrames
    split
    · rfl
    · exact processLoop_filter cv w frames []
  · intro before after frame hg
    unfold Window.processFrames
    split
    · rfl
    · rw [processLoop_filter cv w (before ++ frame :: after),
        processLoop_filter cv w (before ++ after)]
      simp [List.filter_append, List.filter_cons, hg]
  · intro mats h
    unfold Window.processFrames at h
    split at h
    · simp only [pure, Except.pure] at h
      injection h with h
      simp [← h]
    · have := processLoop_length cv w frames [] mats h
      simp only [List.length_nil, Nat.zero_add] at this
      omega

/-- Witness of C10: a null frame and a short frame among two frames that pass the guard. -/
theorem short_or_null_frames_are_skipped_witness :
    Window.processFrames cvModel appModel
        [none, some colorFrame888, some depthFrameShort, some depthFrame12]
      = Window.processFrames cvModel appModel [some colorFrame888, some depthFrame12] ∧
    [(⟨2, 1, 1, MatType.CV_8UC3, [3, 2, 1]⟩ : Mat), ⟨2, 1, 2, MatType.CV_8UC1, [255, 255]⟩].length
      ≤ 2 := by
  have h := short_or_null_frames_are_skipped cvModel appModel
    [none, some colorFrame888, some depthFrameShort, some depthFrame12]
  exact ⟨h.1, h.2.2 [⟨2, 1, 1, MatType.CV_8UC3, [3, 2, 1]⟩, ⟨2, 1, 2, MatType.CV_8UC1, [255, 255]⟩]
    (by rfl)⟩


/-! ### Frame sets with a null frame -/

theorem matsOf_of_null (cv : OpenCV) (app : Window) (fs : FrameSet)
    (hnull : fs.colorFrame = none ∨ fs.depthFrame = none) : matsOf cv app fs = .ok [] := by
  unfold matsOf
  rcases hnull with h | h <;> simp [h, pure, Except.pure]

/-- C11: for a frame set in the slot whose color frame or depth frame is null (the
mutex being free), `GetSynchronizedFrames` returns the empty list, whatever the
decoder is, and resets the slot, and `ProcessAndDisplayFrameSet` returns with no effect
at all: no call of the face detector, of the object tracker or of `cv::imshow`, and
the window unchanged; the frames are passed to `processFrames` exactly when both are
non-null. -/
theorem null_frame_is_not_handed_on (cv : OpenCV) (ext : Collaborators) (app : Window)
    (g : Shared) (fs : FrameSet) (key : Int) (n : Nat)
    (hfree : g.gMutexFrames = false) (hslot : g.gSpFrameSet = some fs)
    (hnull : fs.colorFrame = none ∨ fs.depthFrame = none) :
    GetSynchronizedFrames cv app g = some (.ok [], { g with gSpFrameSet := none }) ∧
    (∀ cv2 : OpenCV, GetSynchronizedFrames cv2 app g = GetSynchronizedFrames cv app g) ∧
    ProcessAndDisplayFrameSet cv ext key ⟨app, g, n⟩
      = some (.ok (⟨app, { g with gSpFrameSet := none }, n + 1⟩, [])) ∧
    (∀ color depth : Frame,
      matsOf cv app ⟨some color, some depth⟩ = app.processFrames cv [some color, some depth]) := by
  have htake : ∀ cv2 : OpenCV,
      GetSynchronizedFrames cv2 app g = some (.ok [], { g with gSpFrameSet := none }) :=
    fun cv2 => take_of_slot cv2 app g fs hfree hslot [] (matsOf_of_null cv2 app fs hnull)
  refine ⟨htake cv, fun cv2 => by rw [htake cv2, htake cv], ?_, ?_⟩
  · simp only [ProcessAndDisplayFrameSet, hslot, htake cv]
    rfl
  · intro color depth
    simp [matsOf]

/-- Witness of C11: `frameSetB`, whose depth frame is null, in the slot. -/
theorem null_frame_is_not_handed_on_witness :
    GetSynchronizedFrames cvModel appModel ⟨some frameSetB, false⟩ = some (.ok [], {}) ∧
    ProcessAndDisplayFrameSet cvModel extModel 0 ⟨appModel, ⟨some frameSetB, false⟩, 7⟩
      = some (.ok (⟨appModel, {}, 8⟩, [])) := by
  have h := null_frame_is_not_handed_on cvModel extModel appModel ⟨some frameSetB, false⟩
    frameSetB 0 7 rfl rfl (Or.inr rfl)
  exact ⟨h.1, h.2.2.1⟩

/-! ### The capacity of the grid -/

/-- C12 (failing input): for 10000 images the grid has 101 columns and 99 rows, which
are 9999 cells, so no cell `(i, j)` of the two loops has the index 9999 and the last
image is placed nowhere. For 10101 images it has 101 columns and 100 rows. -/
theorem grid_10000_drops_last_image :
    gridDims 10000 = (101, 99) ∧
    (gridDims 10000).1 * (gridDims 10000).2 < 10000 ∧
    (∀ i j : Nat, i < (gridDims 10000).2.toNat → j < (gridDims 10000).1.toNat →
      (i : Int) * (gridDims 10000).1 + (j : Int) ≠ 9999) ∧
    gridDims 10101 = (101, 100) := by
  have h : gridDims 10000 = (101, 99) := by decide
  refine ⟨h, ?_, ?_, by decide⟩
  · rw [h]; decide
  · rw [h]
    intro i j hi hj
    simp only [Int.toNat_ofNat] at hi hj
    have hi2 : i < 99 := hi
    have hj2 : j < 101 := hj
    omega

/-- Up to 255 images the grid has a cell for every image. -/
theorem grid_capacity_below_256 :
    ∀ n : Nat, n < 256 → 1 ≤ n → 0 < (gridDims n).1 ∧ (n : Int) ≤ (gridDims n).2 * (gridDims n).1 := by
  decide

/-- Where the grid has as many cells as images, every image is the content of a cell
that the two loops visit. -/
theorem grid_places_every_image (w : Window) (mats : List Mat) (cols rows : Int)
    (hc : 0 < cols) (hcap : (mats.length : Int) ≤ rows * cols) (k : Nat) (hk : k < mats.length) :
    ∃ i j : Nat, i < rows.toNat ∧ j < cols.toNat ∧
      Window.gridCell w mats cols rows i j = .ok (mats.get ⟨k, hk⟩) := by
  obtain ⟨c, rfl⟩ := Int.eq_ofNat_of_zero_le (le_of_lt hc)
  have hcpos : 0 < c := by exact_mod_cast hc
  have hrpos : 0 ≤ rows := by
    by_contra hneg
    have : rows * (c : Int) ≤ 0 := by nlinarith
    have : (0 : Int) < mats.length := by exact_mod_cast (Nat.lt_of_le_of_lt (Nat.zero_le k) hk)
    omega
  obtain ⟨r, rfl⟩ := Int.eq_ofNat_of_zero_le hrpos
  have hcap2 : mats.length ≤ r * c := by exact_mod_cast hcap
  refine ⟨k / c, k % c, ?_, ?_, ?_⟩
  · simp only [Int.toNat_ofNat]
    exact Nat.div_lt_of_lt_mul (by rw [Nat.mul_comm]; omega)
  · simp only [Int.toNat_ofNat]
    exact Nat.mod_lt k hcpos
  · have hidx : ((k / c : Nat) : Int) * (c : Int) + ((k % c : Nat) : Int) = (k : Int) := by
      have := Nat.div_add_mod k c
      have h2 : (k / c) * c + k % c = k := by rw [Nat.mul_comm]; exact this
      exact_mod_cast h2
    simp only [Window.gridCell, hidx]
    rw [if_pos (by exact_mod_cast hk)]
    simp only [Int.toNat_ofNat, List.get?_eq_get hk, pure, Except.pure]
